import Mathlib

/-!
Formalization of the leaderboard epoch engine of the taxrunner game server
(src/server/index.js). JavaScript `Map`s and plain objects keyed by strings
are modelled as association lists in insertion order (`Map.set` updates an
existing key in place and appends new keys at the end; `Map.delete` removes
the key; iteration follows insertion order). JavaScript numbers are modelled
as exact rationals (`ℚ`), with non-finite values represented explicitly where
the code tests for them. Handlers are pure functions from the request and the
server state to the updated state plus a response.
-/

set_option autoImplicit false

namespace Taxrunner

universe u

/-- Lookup of a key in an association list, returning the first (for JS maps:
the unique) binding. Models `map.get(k)` / `obj[k]`. -/
def lookupA {β : Type u} : List (String × β) → String → Option β
  | [], _ => none
  | (k', v) :: rest, k => if k' = k then some v else lookupA rest k

/-- Update of a key in an association list: replaces the first binding in
place, or appends at the end when absent. Models `map.set(k, v)` /
`obj[k] = v`, which preserve insertion order. -/
def setA {β : Type u} : List (String × β) → String → β → List (String × β)
  | [], k, v => [(k, v)]
  | (k', v') :: rest, k, v =>
    if k' = k then (k', v) :: rest else (k', v') :: setA rest k v

/-- Removal of a key from an association list. Models `map.delete(k)` /
`delete obj[k]`; since JS maps have unique keys, removing every binding of
the key is extensionally the same operation. -/
def eraseA {β : Type u} (m : List (String × β)) (k : String) : List (String × β) :=
  m.filter (fun kv => kv.1 != k)

/-- Player record, as created by `POST /register` and stored in `players`. -/
structure Player where
  name : String
  credits : Int
  flashShieldActive : Bool
  saveFromReset : Int
  isAdmin : Bool
  claimCode : String
deriving Repr, DecidableEq

/-- Leaderboard entry `{ playerId, name, score }` stored in
`leaderboards[day]`. -/
structure LBEntry where
  playerId : String
  name : String
  score : Int
deriving Repr, DecidableEq

/-- Run record `{ playerId, startedAt }` stored in `runs`; `startedAt` is a
millisecond timestamp. -/
structure Run where
  playerId : String
  startedAt : ℚ
deriving Repr, DecidableEq

/-- Winner record stored in `winners[day]` at rollover. `verifiedAt` is
absent (`none`) until a successful claim verification records it. -/
structure Winner where
  day : String
  playerId : String
  name : String
  score : Int
  prize : Int
  paid : Bool
  verified : Bool
  claimHash : String
  claimCode : String
  verifiedAt : Option String
deriving Repr, DecidableEq

/-- A submitted JS `score` value: a finite number, a non-finite number, or a
non-number, mirroring the checks `typeof score !== 'number'`,
`!isFinite(score)` and `score < 0` in `POST /submit-score`. -/
inductive ScoreVal where
  | fin (q : ℚ)
  | nan
  | posInf
  | negInf
  | nonNumber
deriving Repr, DecidableEq

/-- The whole in-memory state of the server process that the claims touch. -/
structure ServerState where
  currentDay : String
  leaderboards : List (String × List (String × LBEntry))
  winners : List (String × Winner)
  players : List (String × Player)
  runs : List (String × Run)
  pendingGrants : List (String × List (String × Int))
  moneyDrop : Int
deriving Repr

/-- Submission errors of `POST /submit-score`, in the order the handler can
produce them. `tooFast` carries the reported `need` (`Math.ceil(minSec)`) and
`elapsed` (`Math.floor(elapsedSec)`) diagnostic fields. -/
inductive SubmitErr where
  | invalidPlayer
  | invalidScore
  | noActiveRun
  | tooFast (need : Int) (elapsed : Int)
  | unnaturalRhythm
deriving Repr, DecidableEq

/-- Request body of `POST /submit-score`. `playerName = none` models an
absent or non-string field, `jumpIntervals = none` an absent or non-array
field. -/
structure SubmitReq where
  playerId : String
  playerName : Option String
  score : ScoreVal
  runId : String
  jumpIntervals : Option (List ℚ)
deriving Repr

/-- Population variance of the jump-interval samples:
`reduce((a,b) => a + (b - avg)^2, 0) / length`. The handler compares
`Math.sqrt(variance) < 50`; since `√v < 50 ↔ v < 2500` for the nonnegative
variance, the embedding compares the variance with `2500` directly. -/
def popVariance (xs : List ℚ) : ℚ :=
  let n : ℚ := xs.length
  let avg := xs.sum / n
  ((xs.map (fun b => (b - avg) ^ 2)).sum) / n

/-- The anti-cheat block of `POST /submit-score` (skipped for admins).
Returns the updated `runs` map on success: the run is consumed
(`runs.delete(runId)`) only after both rules pass. -/
def antiCheat (now : ℚ) (q : ℚ) (req : SubmitReq) (p : Player)
    (runs : List (String × Run)) : Except SubmitErr (List (String × Run)) :=
  if p.isAdmin then Except.ok runs
  else
    match lookupA runs req.runId with
    | none => Except.error SubmitErr.noActiveRun
    | some run =>
      if run.playerId ≠ req.playerId then Except.error SubmitErr.noActiveRun
      else
        let elapsedSec := (now - run.startedAt) / 1000
        let minSec := max (q / 6) 8
        if elapsedSec + 2 < minSec then
          Except.error (SubmitErr.tooFast (Int.ceil minSec) (Int.floor elapsedSec))
        else
          match req.jumpIntervals with
          | some xs =>
            if 10 ≤ xs.length then
              if popVariance xs < 2500 then Except.error SubmitErr.unnaturalRhythm
              else Except.ok (eraseA runs req.runId)
            else Except.ok (eraseA runs req.runId)
          | none => Except.ok (eraseA runs req.runId)

/-- Optional display-name update performed by `POST /submit-score`:
`if (playerName && typeof playerName === 'string' && playerName.length > 0
&& playerName.length <= 16) players[playerId].name = playerName`. -/
def updateName (p : Player) (nm : Option String) : Player :=
  match nm with
  | some s => if 0 < s.length ∧ s.length ≤ 16 then { p with name := s } else p
  | none => p

/-- Creation of the current day's leaderboard map when missing:
`if (!leaderboards[currentDay]) leaderboards[currentDay] = new Map()`. -/
def ensureDay (lbs : List (String × List (String × LBEntry))) (day : String) :
    List (String × List (String × LBEntry)) :=
  if (lookupA lbs day).isNone then setA lbs day [] else lbs

/-- The `POST /submit-score` handler. Returns the state as left by the
handler (errors return early, so the state is unchanged except that the
current-day leaderboard map is created, empty, before the anti-cheat block)
together with the response: `best` on success, an error code otherwise. -/
def submitScore (now : ℚ) (req : SubmitReq) (st : ServerState) :
    ServerState × Except SubmitErr Int :=
  match lookupA st.players req.playerId with
  | none => (st, Except.error SubmitErr.invalidPlayer)
  | some p =>
    match req.score with
    | ScoreVal.fin q =>
      if q < 0 then (st, Except.error SubmitErr.invalidScore)
      else
        let lbs := ensureDay st.leaderboards st.currentDay
        match antiCheat now q req p st.runs with
        | Except.error e => ({ st with leaderboards := lbs }, Except.error e)
        | Except.ok runs2 =>
          let p2 := updateName p req.playerName
          let lb := (lookupA lbs st.currentDay).getD []
          let best :=
            match lookupA lb req.playerId with
            | some e => max e.score (Int.floor q)
            | none => Int.floor q
          let lb2 := setA lb req.playerId
            { playerId := req.playerId, name := p2.name, score := best }
          ({ st with players := setA st.players req.playerId p2,
                     runs := runs2,
                     leaderboards := setA lbs st.currentDay lb2 },
           Except.ok best)
    | _ => (st, Except.error SubmitErr.invalidScore)

/-- A score passes the validation `typeof score === 'number' &&
isFinite(score) && score >= 0`. -/
def validScore : ScoreVal → Bool
  | ScoreVal.fin q => decide (0 ≤ q)
  | _ => false

/-- The floored value of a submitted score (`Math.floor(score)`); junk value
`0` for inputs that validation rejects. -/
def scoreFloor : ScoreVal → Int
  | ScoreVal.fin q => Int.floor q
  | _ => 0

/-- The leaderboard map of the current day. -/
def currentLB (st : ServerState) : List (String × LBEntry) :=
  (lookupA st.leaderboards st.currentDay).getD []

/-- The best score stored for a player in the current epoch, if any. -/
def entryScore (st : ServerState) (pid : String) : Option Int :=
  (lookupA (currentLB st) pid).map (fun e => e.score)

/-- Folding one floored submission into the stored best:
`existing ? max(existing.score, floor) : floor`. -/
def accBest : Option Int → Int → Int
  | none, f => f
  | some b, f => max b f

/-- The stored best after a sequence of floored submissions, starting from an
optional pre-existing entry. -/
def bestAfter (o : Option Int) (floors : List Int) : Option Int :=
  floors.foldl (fun acc f => some (accBest acc f)) o

/-- Run a sequence of timed `submit-score` requests, all of which must be
accepted; `none` if any request is rejected. -/
def applyAccepted (st : ServerState) : List (ℚ × SubmitReq) → Option ServerState
  | [] => some st
  | (now, r) :: rest =>
    match submitScore now r st with
    | (st2, Except.ok _) => applyAccepted st2 rest
    | (_, Except.error _) => none

/-- The pending-grants store: `playerId -> { ITEM: count, ... }`. -/
abbrev Grants : Type := List (String × List (String × Int))

/-- `queueGrant(playerId, item, count)`: accumulates a pending grant
(`cur[item] = (cur[item] || 0) + count`). The accompanying best-effort SSE
push carries no state. -/
def queueGrant (pg : Grants) (playerId item : String) (count : Int) : Grants :=
  let cur := (lookupA pg playerId).getD []
  setA pg playerId (setA cur item (((lookupA cur item).getD 0) + count))

/-- The `GET /claim-grants` handler: returns the accumulated grants for the
player (an empty mapping when none) and deletes the player's entry. -/
def claimGrants (pg : Grants) (playerId : String) : List (String × Int) × Grants :=
  ((lookupA pg playerId).getD [], eraseA pg playerId)

/-- Failure modes of the two claim-verification endpoints: `forbidden` (403,
wrong admin key), `notFound` (404, admin path), `missingParams` (400, self
path), `invalidClaim` (404 `Invalid claim`, self path, no matching record),
`badSecret` (400 `bad-secret`, admin path), `invalidVerification` (403
`Invalid verification`, self path). -/
inductive VerifyErr where
  | forbidden
  | notFound
  | missingParams
  | invalidClaim
  | badSecret
  | invalidVerification
deriving Repr, DecidableEq

/-- The `POST /admin/verify-claim` handler. `sha` abstracts
`crypto.createHash('sha256')...digest('hex')`; `now` is the ISO timestamp
recorded as `verifiedAt`. On success returns the updated record and the
updated winners store. -/
def adminVerifyClaim (sha : String → String) (adminKey key : String)
    (day playerId claimSecret : String) (ws : List (String × Winner)) (now : String) :
    Except VerifyErr (Winner × List (String × Winner)) :=
  if key ≠ adminKey then Except.error VerifyErr.forbidden
  else
    match lookupA ws day with
    | none => Except.error VerifyErr.notFound
    | some w =>
      if w.playerId ≠ playerId then Except.error VerifyErr.notFound
      else if sha claimSecret ≠ w.claimHash then Except.error VerifyErr.badSecret
      else
        let w2 := { w with verified := true, verifiedAt := some now }
        Except.ok (w2, setA ws day w2)

/-- The `POST /verify-winner` (self-service) handler: requires all three
fields (JS truthiness: the empty string is missing), locates the record by
scanning `Object.keys(winners)` for a matching `(playerId, claimCode)` pair,
then compares the hash of the supplied secret. -/
def verifyWinner (sha : String → String) (playerId claimCode claimSecret : String)
    (ws : List (String × Winner)) (now : String) :
    Except VerifyErr (Winner × List (String × Winner)) :=
  if playerId = "" ∨ claimCode = "" ∨ claimSecret = "" then
    Except.error VerifyErr.missingParams
  else
    match ws.find? (fun kv => kv.2.playerId == playerId && kv.2.claimCode == claimCode) with
    | none => Except.error VerifyErr.invalidClaim
    | some (day, w) =>
      if sha claimSecret ≠ w.claimHash then Except.error VerifyErr.invalidVerification
      else
        let w2 := { w with verified := true, verifiedAt := some now }
        Except.ok (w2, setA ws day w2)

/-- JSON response values, used to state what the winner endpoints expose. -/
inductive Json where
  | null
  | str (s : String)
  | int (n : Int)
  | bool (b : Bool)
  | arr (elems : List Json)
  | obj (fields : List (String × Json))
deriving Repr

/-- The field of a JSON object response, `none` for non-objects or missing
fields. -/
def objField (j : Json) (k : String) : Option Json :=
  match j with
  | Json.obj fs => lookupA fs k
  | _ => none

/-- First element of a JSON array response. -/
def jsonHead : Json → Option Json
  | Json.arr (j :: _) => some j
  | _ => none

/-- Insert a string into a lexicographically sorted list; building block of
`Object.keys(winners).sort()`. -/
def insertSorted (s : String) : List String → List String
  | [] => [s]
  | t :: rest => if s ≤ t then s :: t :: rest else t :: insertSorted s rest

/-- `Object.keys(...).sort()`: the keys in ascending lexicographic order. -/
def sortStr (l : List String) : List String :=
  l.foldr insertSorted []

/-- The JSON serialization of a stored winner record, as `res.json(w)`
produces it for `GET /yesterday-winner` and `GET /winners` (every stored
field is included; `verifiedAt` only once set). -/
def winnerJson (w : Winner) : Json :=
  Json.obj ([("day", Json.str w.day), ("playerId", Json.str w.playerId),
    ("name", Json.str w.name), ("score", Json.int w.score),
    ("prize", Json.int w.prize), ("paid", Json.bool w.paid),
    ("verified", Json.bool w.verified), ("claimHash", Json.str w.claimHash),
    ("claimCode", Json.str w.claimCode)] ++
    (match w.verifiedAt with
     | some t => [("verifiedAt", Json.str t)]
     | none => []))

/-- The `GET /me/winner` handler: for the latest recorded winner day, if it
names the requesting player, a summary `{day, prize, verified, paid}`;
otherwise `null`. -/
def meWinner (players : List (String × Player)) (ws : List (String × Winner))
    (playerId : String) : Json :=
  match lookupA players playerId with
  | none => Json.null
  | some _ =>
    match (sortStr (ws.map Prod.fst)).getLast? with
    | none => Json.null
    | some last =>
      match lookupA ws last with
      | none => Json.null
      | some w =>
        if w.playerId = playerId then
          Json.obj [("day", Json.str w.day), ("prize", Json.int w.prize),
            ("verified", Json.bool w.verified), ("paid", Json.bool w.paid)]
        else Json.null

/-- The `GET /yesterday-winner` handler: the full stored record of the last
winner day, or `null`. -/
def yesterdayWinner (ws : List (String × Winner)) : Json :=
  match (sortStr (ws.map Prod.fst)).getLast? with
  | none => Json.null
  | some last =>
    match lookupA ws last with
    | none => Json.null
    | some w => winnerJson w

/-- The `GET /winners` handler: the full stored records of the last
`max(1, min(limit, 30))` winner days (default limit 7), sorted by day. -/
def winnersEndpoint (ws : List (String × Winner)) (limitRaw : Option Int) : Json :=
  let limit := max 1 (min (limitRaw.getD 7) 30)
  let days := sortStr (ws.map Prod.fst)
  Json.arr ((days.drop (days.length - limit.toNat)).filterMap
    (fun d => (lookupA ws d).map winnerJson))

/-- Leading and trailing whitespace removal on the character list of a
string; models `String.prototype.trim()`. -/
def trimChars (l : List Char) : List Char :=
  ((l.dropWhile Char.isWhitespace).reverse.dropWhile Char.isWhitespace).reverse

/-- `name.trim()`. -/
def jsTrim (s : String) : String := ⟨trimChars s.data⟩

/-- Whether `pat` is a leading subsequence of `l`. -/
def isPrefixCL : List Char → List Char → Bool
  | [], _ => true
  | _ :: _, [] => false
  | p :: ps, c :: cs => p == c && isPrefixCL ps cs

/-- `l.includes(pat)` on character lists. -/
def containsCL (pat : List Char) : List Char → Bool
  | [] => isPrefixCL pat []
  | c :: cs => isPrefixCL pat (c :: cs) || containsCL pat cs

/-- Left-to-right removal of every (non-overlapping) occurrence of `pat`,
with explicit fuel (one unit per consumed character, so `l.length` always
suffices); models `l.replaceAll(pat, '')`. -/
def removeAllAux (pat : List Char) : Nat → List Char → List Char
  | _, [] => []
  | 0, l => l
  | fuel + 1, c :: cs =>
    if pat ≠ [] ∧ isPrefixCL pat (c :: cs) = true then
      removeAllAux pat fuel (List.drop (pat.length - 1) cs)
    else c :: removeAllAux pat fuel cs

/-- `s.replaceAll(pat, '')`. -/
def removeAllStr (s pat : String) : String :=
  ⟨removeAllAux pat.data s.data.length s.data⟩

/-- `s.includes(pat)`. -/
def containsStr (s pat : String) : Bool :=
  containsCL pat.data s.data

/-- The magic admin-trigger substring checked at registration. -/
def ADMIN_TRIGGER : String := "xfiles75"

/-- Result of `POST /register`: a rejection, or the new player id, the stored
player record, and the `name` field echoed in the response. -/
inductive RegisterResult where
  | invalidName
  | ok (playerId : String) (p : Player) (respName : String)
deriving Repr, DecidableEq

/-- The `POST /register` handler. `nameField` is the (string-coerced) `name`
of the request body, `uuid` the generated player id. The raw name is trimmed
and rejected when empty or longer than 32; the admin trigger is stripped from
the displayed name, which is cut to 16 characters. -/
def register (nameField uuid : String) : RegisterResult :=
  let raw := jsTrim nameField
  if raw = "" ∨ 32 < raw.length then RegisterResult.invalidName
  else
    let isAdmin := containsStr raw ADMIN_TRIGGER || raw == ADMIN_TRIGGER
    let baseName := jsTrim (removeAllStr raw ADMIN_TRIGGER)
    let cleanName : String := ⟨baseName.data.take 16⟩
    let claimCode := "drop-" ++ (⟨uuid.data.take 8⟩ : String)
    RegisterResult.ok uuid
      { name := cleanName,
        credits := if isAdmin then 9999 else 100,
        flashShieldActive := false,
        saveFromReset := 0,
        isAdmin := isAdmin,
        claimCode := claimCode }
      cleanName

/-- The hourly sweep `cleanupOldRuns()`: drops every run with
`startedAt < now - 3600000`. -/
def cleanupOldRuns (now : ℚ) (runs : List (String × Run)) : List (String × Run) :=
  runs.filter (fun kv => !(decide (kv.2.startedAt < now - 3600000)))

/-- Stable insertion into a descending-by-score list: the entry is placed
before the first element whose score does not exceed it, so that — inserting
in reverse encounter order, as `sortDesc` does — equal scores keep their
encounter order. -/
def insertDesc (e : LBEntry) : List LBEntry → List LBEntry
  | [] => [e]
  | x :: rest => if x.score ≤ e.score then e :: x :: rest else x :: insertDesc e rest

/-- The stable descending sort `entries.sort((a,b) => b.score - a.score)`
(JS `Array.prototype.sort` is stable, so equal scores keep encounter
order). -/
def sortDesc : List LBEntry → List LBEntry
  | [] => []
  | e :: rest => insertDesc e (sortDesc rest)

/-- The first entry attaining the maximum score of a list — the head of the
stable descending sort. -/
def firstMax : List LBEntry → Option LBEntry
  | [] => none
  | e :: rest =>
    match firstMax rest with
    | none => some e
    | some m => some (if e.score < m.score then m else e)

/-- The winner record written at rollover for the closed day's top entry. -/
def mkWinner (prevDay : String) (top1 : LBEntry) (prize : Int)
    (claimHash claimCode : String) : Winner :=
  { day := prevDay, playerId := top1.playerId, name := top1.name,
    score := top1.score, prize := prize, paid := false, verified := false,
    claimHash := claimHash, claimCode := claimCode, verifiedAt := none }

/-- The per-player effect of the save-from-reset pass of the rollover on the
player record: decrement the counter exactly when it is positive and the
closing board has an entry with positive score for the player. -/
def saveAdjust (prevA : List (String × LBEntry)) (pid : String) (p : Player) : Player :=
  if 0 < p.saveFromReset then
    match lookupA prevA pid with
    | some prev =>
      if 0 < prev.score then { p with saveFromReset := p.saveFromReset - 1 } else p
    | none => p
  else p

/-- The save-from-reset loop of the rollover: walk `Object.entries(players)`
in order; for each player with a positive counter and a positive-score entry
on the closing board, copy the score into the new board and decrement the
counter. Returns the updated players and the updated new-day board. -/
def applySaves (prevA : List (String × LBEntry)) :
    List (String × Player) → List (String × LBEntry) →
    List (String × Player) × List (String × LBEntry)
  | [], lb => ([], lb)
  | (pid, p) :: rest, lb =>
    if 0 < p.saveFromReset then
      match lookupA prevA pid with
      | some prev =>
        if 0 < prev.score then
          let out := applySaves prevA rest
            (setA lb pid { playerId := pid, name := p.name, score := prev.score })
          ((pid, { p with saveFromReset := p.saveFromReset - 1 }) :: out.1, out.2)
        else
          let out := applySaves prevA rest lb
          ((pid, p) :: out.1, out.2)
      | none =>
        let out := applySaves prevA rest lb
        ((pid, p) :: out.1, out.2)
    else
      let out := applySaves prevA rest lb
      ((pid, p) :: out.1, out.2)

/-- One tick of the rollover `setInterval`: sweep old runs; if the day key
changed, compute the closed day's winner (generating `secret`/`code`, storing
only `hash secret` and the code), run the save-from-reset pass into the new
board, and adopt the new day. The SSE sends (`youWon`, `forceReset`) carry no
state. -/
def rolloverTick (nowKey : String) (now : ℚ) (secret code : String)
    (hash : String → String) (st : ServerState) : ServerState :=
  let runs2 := cleanupOldRuns now st.runs
  if nowKey = st.currentDay then { st with runs := runs2 }
  else
    let prevDay := st.currentDay
    let lbs := ensureDay st.leaderboards nowKey
    let prevA := (lookupA lbs prevDay).getD []
    let winners2 :=
      match (sortDesc (prevA.map Prod.snd)).head? with
      | none => st.winners
      | some top1 =>
        setA st.winners prevDay (mkWinner prevDay top1 st.moneyDrop (hash secret) code)
    let saved := applySaves prevA st.players ((lookupA lbs nowKey).getD [])
    { st with currentDay := nowKey,
              leaderboards := setA lbs nowKey saved.2,
              winners := winners2,
              players := saved.1,
              runs := runs2 }

/-- One scheduled invocation of the rollover checker: the observed day key
and time, and the entropy drawn for a possible winner record. -/
structure TickIn where
  nowKey : String
  now : ℚ
  secret : String
  code : String

/-- A run of the rollover checker over a list of tick inputs. -/
def runTicks (hash : String → String) (st : ServerState) : List TickIn → ServerState
  | [] => st
  | t :: rest => runTicks hash (rolloverTick t.nowKey t.now t.secret t.code hash st) rest

/-- A `flashbang` SSE event as pushed to one target by `POST /use-item`. -/
structure FlashEvent where
  target : String
  sentBy : String
  ts : ℚ
deriving Repr, DecidableEq

/-- Errors of `POST /use-item`. -/
inductive UseItemErr where
  | invalidPlayer
  | notUsable
deriving Repr, DecidableEq

/-- The FLASHBANG branch of the `POST /use-item` handler: requires only that
the player exists (no credit check or deduction, no inventory), filters the
sender out of the connected SSE client ids, shuffles (`shuffle` stands for
the Fisher-Yates pass driven by `Math.random()`), takes up to 50 targets and
emits a `flashbang` event to each; the server state is returned untouched. -/
def useItemFlashbang (shuffle : List String → List String) (ts : ℚ)
    (playerId : String) (st : ServerState) (sseIds : List String) :
    Except UseItemErr (ServerState × List FlashEvent) :=
  match lookupA st.players playerId with
  | none => Except.error UseItemErr.invalidPlayer
  | some _ =>
    let pool := sseIds.filter (fun id => id != playerId)
    let targets := (shuffle pool).take 50
    Except.ok (st, targets.map (fun id => { target := id, sentBy := playerId, ts := ts }))

/-- The expected stored entry after the save-from-reset pass for one player:
the carried entry when the pass applies, the prior binding otherwise. -/
def savedEntry (prevA : List (String × LBEntry)) (pid : String) (p : Player)
    (fallback : Option LBEntry) : Option LBEntry :=
  match lookupA prevA pid with
  | some prev =>
    if 0 < p.saveFromReset ∧ 0 < prev.score
    then some { playerId := pid, name := p.name, score := prev.score }
    else fallback
  | none => fallback

/-- A sample stored winner record (with its claim hash) used to evaluate the
winner endpoints on a concrete state. -/
def sampleWinner : Winner :=
  { day := "2024-05-01", playerId := "p1", name := "alice", score := 500,
    prize := 100, paid := false, verified := false, claimHash := "deadbeef",
    claimCode := "win-aaaa", verifiedAt := none }

/-- A one-winner `winners` store for concrete evaluation. -/
def sampleWinners : List (String × Winner) := [("2024-05-01", sampleWinner)]

/-- A non-admin player record for concrete evaluation. -/
def samplePlayer : Player :=
  { name := "alice", credits := 100, flashShieldActive := false,
    saveFromReset := 0, isAdmin := false, claimCode := "drop-1" }

/-- An admin player record for concrete evaluation. -/
def sampleAdmin : Player :=
  { name := "boss", credits := 9999, flashShieldActive := false,
    saveFromReset := 0, isAdmin := true, claimCode := "drop-2" }

/-- A concrete stand-in for the sha256 hex digest, used to evaluate the claim
protocol on concrete states. -/
def shaW : String → String := fun s => "#" ++ s

/-- A one-admin-player state for concrete evaluation of score submission. -/
def subAdminState : ServerState :=
  { currentDay := "2024-05-01", leaderboards := [], winners := [],
    players := [("p", sampleAdmin)], runs := [], pendingGrants := [], moneyDrop := 100 }

/-- A submission by the admin player with the given finite score. -/
def subReqAt (q : ℚ) : SubmitReq :=
  { playerId := "p", playerName := none, score := ScoreVal.fin q, runId := "r",
    jumpIntervals := none }

/-- A submission whose score is NaN. -/
def subBadReq : SubmitReq :=
  { playerId := "p", playerName := none, score := ScoreVal.nan, runId := "r",
    jumpIntervals := none }

/-- A two-submission sequence (scores 3 then 7) by the admin player. -/
def subSeqList : List (ℚ × SubmitReq) := [(0, subReqAt 3), (1, subReqAt 7)]

/-- The state after running `subSeqList` from `subAdminState`. -/
def subSeqOut : ServerState := (applyAccepted subAdminState subSeqList).getD subAdminState

/-- A winner record whose stored claim hash is `shaW "sec"`. -/
def verWinnerRec : Winner :=
  { day := "2024-05-01", playerId := "p1", name := "alice", score := 500,
    prize := 100, paid := false, verified := false, claimHash := "#sec",
    claimCode := "win-aaaa", verifiedAt := none }

/-- A one-record winners store for concrete claim verification. -/
def verWinners : List (String × Winner) := [("2024-05-01", verWinnerRec)]

/-- A closing-day board with two entries (scores 100 and 300). -/
def rollLB : List (String × LBEntry) :=
  [("a", { playerId := "a", name := "A", score := 100 }),
   ("b", { playerId := "b", name := "B", score := 300 })]

/-- A state on the closing day holding `rollLB`. -/
def rollState : ServerState :=
  { currentDay := "2024-05-01", leaderboards := [("2024-05-01", rollLB)],
    winners := [], players := [], runs := [], pendingGrants := [], moneyDrop := 100 }

/-- A player holding two save-from-reset charges. -/
def saverPlayer : Player :=
  { name := "carol", credits := 100, flashShieldActive := false,
    saveFromReset := 2, isAdmin := false, claimCode := "drop-5" }

/-- A player holding no save-from-reset charge. -/
def nonSaverPlayer : Player :=
  { name := "dave", credits := 100, flashShieldActive := false,
    saveFromReset := 0, isAdmin := false, claimCode := "drop-6" }

/-- A closing-day state where `saverPlayer` has a score-500 entry. -/
def saveState : ServerState :=
  { currentDay := "2024-05-01",
    leaderboards := [("2024-05-01",
      [("c", { playerId := "c", name := "carol", score := 500 })])],
    winners := [], players := [("c", saverPlayer), ("d", nonSaverPlayer)],
    runs := [], pendingGrants := [], moneyDrop := 100 }

/-- A state with a non-admin player owning one active run started at time 0. -/
def acState : ServerState :=
  { currentDay := "2024-05-01", leaderboards := [], winners := [],
    players := [("n", samplePlayer)],
    runs := [("r1", { playerId := "n", startedAt := 0 })],
    pendingGrants := [], moneyDrop := 100 }

/-- A score-600 submission consuming run `r1`. -/
def acReq : SubmitReq :=
  { playerId := "n", playerName := none, score := ScoreVal.fin 600, runId := "r1",
    jumpIntervals := none }

/-- The same submission with an unknown run id. -/
def acReqNoRun : SubmitReq := { acReq with runId := "zz" }

theorem lookupA_setA_self {β : Type u} (m : List (String × β)) (k : String) (v : β) :
    lookupA (setA m k v) k = some v := by
  induction m with
  | nil => simp [setA, lookupA]
  | cons hd tl ih =>
    obtain ⟨k', v'⟩ := hd
    by_cases h : k' = k
    · simp [setA, lookupA, h]
    · simp [setA, lookupA, h, ih]

theorem lookupA_setA_ne {β : Type u} (m : List (String × β)) (k k' : String) (v : β)
    (h : k' ≠ k) : lookupA (setA m k v) k' = lookupA m k' := by
  induction m with
  | nil => simp [setA, lookupA, Ne.symm h]
  | cons hd tl ih =>
    obtain ⟨k₀, v₀⟩ := hd
    by_cases h₀ : k₀ = k
    · subst h₀
      simp [setA, lookupA, Ne.symm h]
    · simp only [setA, if_neg h₀, lookupA]
      by_cases h₁ : k₀ = k'
      · simp [h₁]
      · simp [h₁, ih]

theorem lookupA_eraseA_self {β : Type u} (m : List (String × β)) (k : String) :
    lookupA (eraseA m k) k = none := by
  induction m with
  | nil => simp [eraseA, lookupA]
  | cons hd tl ih =>
    obtain ⟨k', v'⟩ := hd
    by_cases h : k' = k
    · subst h
      simpa [eraseA, List.filter_cons] using ih
    · simp only [eraseA, List.filter_cons] at ih ⊢
      simpa [bne_iff_ne, h, lookupA] using ih

theorem lookupA_eraseA_ne {β : Type u} (m : List (String × β)) (k k' : String)
    (h : k' ≠ k) : lookupA (eraseA m k) k' = lookupA m k' := by
  induction m with
  | nil => simp [eraseA, lookupA]
  | cons hd tl ih =>
    obtain ⟨k₀, v₀⟩ := hd
    by_cases h₀ : k₀ = k
    · subst h₀
      simp only [eraseA, List.filter_cons, bne_self_eq_false, cond_false, lookupA,
        if_neg (Ne.symm h)] at ih ⊢
      simpa [eraseA] using ih
    · simp only [eraseA, List.filter_cons] at ih ⊢
      by_cases h₁ : k₀ = k'
      · simp [bne_iff_ne, h₀, lookupA, h₁, h]
      · simpa [bne_iff_ne, h₀, lookupA, h₁] using ih

theorem lookupA_ensureDay_self (m : List (String × List (String × LBEntry))) (d : String) :
    lookupA (ensureDay m d) d = some ((lookupA m d).getD []) := by
  unfold ensureDay
  cases h : lookupA m d <;> simp [h, lookupA_setA_self]

theorem lookupA_ensureDay_ne (m : List (String × List (String × LBEntry))) (d d' : String)
    (h : d' ≠ d) : lookupA (ensureDay m d) d' = lookupA m d' := by
  unfold ensureDay
  split <;> simp [lookupA_setA_ne _ _ _ _ h]

theorem currentLB_eq_ensured (st : ServerState) :
    ((lookupA (ensureDay st.leaderboards st.currentDay) st.currentDay).getD []) = currentLB st := by
  simp [lookupA_ensureDay_self, currentLB]

/-- Shape of a successful `submit-score`: the returned `best` folds the
floored score into the previously stored best, the stored entry afterwards
holds exactly `best`, and the epoch does not change. -/
theorem submitScore_ok_entry (now : ℚ) (r : SubmitReq) (st st' : ServerState) (b : Int)
    (h : submitScore now r st = (st', Except.ok b)) :
    b = accBest (entryScore st r.playerId) (scoreFloor r.score) ∧
    entryScore st' r.playerId = some b ∧
    st'.currentDay = st.currentDay := by
  unfold submitScore at h
  split at h
  · exact absurd (congrArg Prod.snd h) (by simp)
  next p hp =>
    split at h
    next q hsc =>
      split at h
      · exact absurd (congrArg Prod.snd h) (by simp)
      next hq =>
        split at h
        · exact absurd (congrArg Prod.snd h) (by simp)
        next runs2 hac =>
          rw [Prod.mk.injEq] at h
          obtain ⟨hst, hb⟩ := h
          obtain rfl := Except.ok.inj hb
          subst hst
          refine ⟨?_, ?_, rfl⟩
          · rw [currentLB_eq_ensured st, hsc, scoreFloor, entryScore]
            cases lookupA (currentLB st) r.playerId <;> simp [accBest]
          · simp only [entryScore, currentLB, lookupA_setA_self, Option.getD_some,
              lookupA_setA_self, Option.map_some]
            rfl
    all_goals exact absurd (congrArg Prod.snd h) (by simp)

theorem submitScore_invalid_score (now : ℚ) (r : SubmitReq) (st : ServerState) (p : Player)
    (hp : lookupA st.players r.playerId = some p) (hv : validScore r.score = false) :
    submitScore now r st = (st, Except.error SubmitErr.invalidScore) := by
  unfold submitScore
  rw [hp]
  cases hs : r.score with
  | fin q =>
    have hq : q < 0 := by
      rw [hs] at hv
      simpa [validScore, not_le] using hv
    simp [hq]
  | nan => rfl
  | posInf => rfl
  | negInf => rfl
  | nonNumber => rfl

theorem foldlMax_le (fs : List Int) : ∀ (f0 : Int), ∀ x ∈ f0 :: fs, x ≤ fs.foldl max f0 := by
  induction fs with
  | nil => simp
  | cons f1 rest ih =>
    intro f0 x hx
    simp only [List.foldl_cons]
    rcases List.mem_cons.mp hx with hx | hx
    · rw [hx]
      exact le_trans (le_max_left f0 f1) (ih (max f0 f1) _ (List.mem_cons_self _ _))
    · rcases List.mem_cons.mp hx with hx | hx
      · rw [hx]
        exact le_trans (le_max_right f0 f1) (ih (max f0 f1) _ (List.mem_cons_self _ _))
      · exact ih (max f0 f1) _ (List.mem_cons_of_mem _ hx)

theorem foldlMax_mem (fs : List Int) : ∀ (f0 : Int), fs.foldl max f0 ∈ f0 :: fs := by
  induction fs with
  | nil => simp
  | cons f1 rest ih =>
    intro f0
    have h := ih (max f0 f1)
    simp only [List.foldl_cons]
    rcases max_choice f0 f1 with hm | hm <;>
      rcases List.mem_cons.mp h with h' | h' <;>
      simp_all [List.mem_cons]

theorem bestAfter_some (a : Int) (fs : List Int) :
    bestAfter (some a) fs = some (fs.foldl max a) := by
  induction fs generalizing a with
  | nil => rfl
  | cons f rest ih => simpa [bestAfter, accBest] using ih (max a f)

theorem bestAfter_none_cons (f : Int) (fs : List Int) :
    bestAfter none (f :: fs) = some (fs.foldl max f) := by
  simpa [bestAfter, accBest] using bestAfter_some f fs

theorem applyAccepted_entry (pid : String) (l : List (ℚ × SubmitReq)) :
    ∀ (st st' : ServerState),
      (∀ x ∈ l, (x.2).playerId = pid) → applyAccepted st l = some st' →
      entryScore st' pid = bestAfter (entryScore st pid)
        (l.map (fun x => scoreFloor (x.2).score)) ∧
      st'.currentDay = st.currentDay := by
  induction l with
  | nil =>
    intro st st' _ h
    obtain rfl := Option.some.inj h
    simp [bestAfter]
  | cons hd tl ih =>
    intro st st' hall happ
    obtain ⟨now, r⟩ := hd
    have hpid : r.playerId = pid := hall (now, r) (List.mem_cons_self _ _)
    unfold applyAccepted at happ
    split at happ
    next st2 b heq =>
      have hstep := submitScore_ok_entry now r st st2 b heq
      obtain ⟨hb, hentry, hday⟩ := hstep
      rw [hpid] at hb hentry
      have htl := ih st2 st' (fun x hx => hall x (List.mem_cons_of_mem _ hx)) happ
      obtain ⟨h1, h2⟩ := htl
      constructor
      · rw [h1, hentry, hb]
        rfl
      · rw [h2, hday]
    next heq => exact absurd happ (by simp)

/-- C1: for every player and sequence of accepted `submit-score` calls within
one epoch, the stored best equals the fold of `max` over the floored
submitted values (hence, starting from no entry, the maximum of all floored
values), a single accepted call never decreases the stored best, and a
submission whose score is negative, non-finite or not a number is rejected
with the invalid-score error and leaves the state unchanged. -/
theorem submit_score_best_is_max_of_floors (pid : String) :
    (∀ (now : ℚ) (r : SubmitReq) (st st' : ServerState) (b : Int),
        r.playerId = pid → submitScore now r st = (st', Except.ok b) →
        b = accBest (entryScore st pid) (scoreFloor r.score) ∧
        entryScore st' pid = some b ∧
        (∀ old, entryScore st pid = some old → old ≤ b))
    ∧ (∀ (l : List (ℚ × SubmitReq)) (st st' : ServerState),
        (∀ x ∈ l, (x.2).playerId = pid) → applyAccepted st l = some st' →
        entryScore st' pid = bestAfter (entryScore st pid)
          (l.map (fun x => scoreFloor (x.2).score)))
    ∧ (∀ (l : List (ℚ × SubmitReq)) (st st' : ServerState) (M : Int),
        (∀ x ∈ l, (x.2).playerId = pid) → applyAccepted st l = some st' →
        entryScore st pid = none → entryScore st' pid = some M →
        M ∈ l.map (fun x => scoreFloor (x.2).score) ∧
        ∀ f ∈ l.map (fun x => scoreFloor (x.2).score), f ≤ M)
    ∧ (∀ (now : ℚ) (r : SubmitReq) (st : ServerState) (p : Player),
        lookupA st.players r.playerId = some p → validScore r.score = false →
        submitScore now r st = (st, Except.error SubmitErr.invalidScore)) := by
  refine ⟨?_, ?_, ?_, ?_⟩
  · intro now r st st' b hpid hok
    obtain ⟨hb, hentry, _⟩ := submitScore_ok_entry now r st st' b hok
    rw [hpid] at hb hentry
    refine ⟨hb, hentry, ?_⟩
    intro old hold
    rw [hold] at hb
    simp [accBest, hb]
  · intro l st st' hall happ
    exact (applyAccepted_entry pid l st st' hall happ).1
  · intro l st st' M hall happ hnone hM
    have h := (applyAccepted_entry pid l st st' hall happ).1
    rw [hnone] at h
    cases l with
    | nil => rw [h] at hM; simp [bestAfter] at hM
    | cons hd tl =>
      rw [h] at hM
      rw [List.map_cons, bestAfter_none_cons] at hM
      obtain rfl := Option.some.inj hM
      constructor
      · simpa using foldlMax_mem (tl.map (fun x => scoreFloor (x.2).score))
          (scoreFloor (hd.2).score)
      · simpa using foldlMax_le (tl.map (fun x => scoreFloor (x.2).score))
          (scoreFloor (hd.2).score)
  · intro now r st p hp hv
    exact submitScore_invalid_score now r st p hp hv

theorem submitScore_snd_error_iff (now : ℚ) (r : SubmitReq) (st : ServerState)
    (p : Player) (q : ℚ) (e : SubmitErr)
    (hp : lookupA st.players r.playerId = some p) (hsc : r.score = ScoreVal.fin q)
    (hq : ¬ q < 0) :
    ((submitScore now r st).2 = Except.error e ↔
      antiCheat now q r p st.runs = Except.error e) := by
  unfold submitScore
  rw [hp, hsc]
  cases hac : antiCheat now q r p st.runs <;> simp [hq, hac]

theorem submitScore_acOk (now : ℚ) (r : SubmitReq) (st : ServerState)
    (p : Player) (q : ℚ) (runs2 : List (String × Run))
    (hp : lookupA st.players r.playerId = some p) (hsc : r.score = ScoreVal.fin q)
    (hq : ¬ q < 0) (hac : antiCheat now q r p st.runs = Except.ok runs2) :
    ∃ b st', submitScore now r st = (st', Except.ok b) ∧ st'.runs = runs2 := by
  unfold submitScore
  rw [hp, hsc]
  simp only [hq, if_false, hac]
  exact ⟨_, _, rfl, rfl⟩

theorem submitScore_ok_runs (now : ℚ) (r : SubmitReq) (st st' : ServerState) (b : Int)
    (h : submitScore now r st = (st', Except.ok b)) :
    ∃ p q runs2, lookupA st.players r.playerId = some p ∧ r.score = ScoreVal.fin q ∧
      antiCheat now q r p st.runs = Except.ok runs2 ∧ st'.runs = runs2 := by
  unfold submitScore at h
  split at h
  · exact absurd (congrArg Prod.snd h) (by simp)
  next p hp =>
    split at h
    next q hsc =>
      split at h
      · exact absurd (congrArg Prod.snd h) (by simp)
      next hq =>
        split at h
        · exact absurd (congrArg Prod.snd h) (by simp)
        next runs2 hac =>
          rw [Prod.mk.injEq] at h
          obtain ⟨hst, hb⟩ := h
          subst hst
          exact ⟨p, q, runs2, hp, hsc, hac, rfl⟩
    all_goals exact absurd (congrArg Prod.snd h) (by simp)

theorem antiCheat_admin (now q : ℚ) (r : SubmitReq) (p : Player)
    (runs : List (String × Run)) (hadm : p.isAdmin = true) :
    antiCheat now q r p runs = Except.ok runs := by
  unfold antiCheat
  rw [hadm]
  rfl

theorem antiCheat_ok_nonadmin (now q : ℚ) (r : SubmitReq) (p : Player)
    (runs runs2 : List (String × Run)) (hadm : p.isAdmin = false)
    (hac : antiCheat now q r p runs = Except.ok runs2) :
    runs2 = eraseA runs r.runId := by
  unfold antiCheat at hac
  rw [hadm] at hac
  simp only [Bool.false_eq_true, if_false] at hac
  split at hac
  · exact absurd hac (by simp)
  · split at hac
    · exact absurd hac (by simp)
    · split at hac
      · exact absurd hac (by simp)
      · split at hac
        · split at hac
          · split at hac
            · exact absurd hac (by simp)
            · exact (Except.ok.inj hac).symm
          · exact (Except.ok.inj hac).symm
        · exact (Except.ok.inj hac).symm

theorem antiCheat_noRun (now q : ℚ) (r : SubmitReq) (p : Player)
    (runs : List (String × Run)) (hadm : p.isAdmin = false)
    (hrun : lookupA runs r.runId = none ∨
      ∃ run, lookupA runs r.runId = some run ∧ run.playerId ≠ r.playerId) :
    antiCheat now q r p runs = Except.error SubmitErr.noActiveRun := by
  unfold antiCheat
  rw [hadm]
  rcases hrun with hrun | ⟨run, hrun, hne⟩
  · simp [hrun]
  · simp [hrun, hne]

theorem antiCheat_shape (now q : ℚ) (r : SubmitReq) (p : Player)
    (runs : List (String × Run)) (run : Run)
    (hadm : p.isAdmin = false) (hrun : lookupA runs r.runId = some run)
    (hown : run.playerId = r.playerId) :
    antiCheat now q r p runs =
      (if (now - run.startedAt) / 1000 + 2 < max (q / 6) 8
       then Except.error (SubmitErr.tooFast (Int.ceil (max (q / 6) 8))
              (Int.floor ((now - run.startedAt) / 1000)))
       else match r.jumpIntervals with
            | some xs =>
              if 10 ≤ xs.length then
                if popVariance xs < 2500 then Except.error SubmitErr.unnaturalRhythm
                else Except.ok (eraseA runs r.runId)
              else Except.ok (eraseA runs r.runId)
            | none => Except.ok (eraseA runs r.runId)) := by
  unfold antiCheat
  rw [hadm, hrun]
  simp [hown]

/-- C6: for a non-admin submission with an existing owned run, the handler
rejects with TooFast exactly when `elapsed + 2 < max(score / 6, 8)` (reporting
`ceil(required)` and `floor(elapsed)`), and — the minimum-time rule being
checked first — when at least 10 jump-interval samples are supplied it
rejects with UnnaturalRhythm exactly when the minimum-time rule passed and
the population standard deviation of the samples is below 50 (the embedded
comparison `variance < 2500` being equivalent to `√variance < 50`). -/
theorem anti_cheat_rules (now : ℚ) (r : SubmitReq) (st : ServerState) (p : Player)
    (q : ℚ) (run : Run)
    (hp : lookupA st.players r.playerId = some p) (hadm : p.isAdmin = false)
    (hsc : r.score = ScoreVal.fin q) (hq : ¬ q < 0)
    (hrun : lookupA st.runs r.runId = some run) (hown : run.playerId = r.playerId) :
    ((now - run.startedAt) / 1000 + 2 < max (q / 6) 8 →
      (submitScore now r st).2 = Except.error (SubmitErr.tooFast
        (Int.ceil (max (q / 6) 8)) (Int.floor ((now - run.startedAt) / 1000))))
    ∧ ((∃ n e, (submitScore now r st).2 = Except.error (SubmitErr.tooFast n e)) ↔
        (now - run.startedAt) / 1000 + 2 < max (q / 6) 8)
    ∧ (∀ xs, r.jumpIntervals = some xs → 10 ≤ xs.length →
        ((submitScore now r st).2 = Except.error SubmitErr.unnaturalRhythm ↔
          (¬ (now - run.startedAt) / 1000 + 2 < max (q / 6) 8 ∧ popVariance xs < 2500)))
    ∧ (∀ xs, Real.sqrt ((popVariance xs : ℚ) : ℝ) < 50 ↔ popVariance xs < 2500) := by
  have hiff := fun e => submitScore_snd_error_iff now r st p q e hp hsc hq
  have hsh := antiCheat_shape now q r p st.runs run hadm hrun hown
  by_cases ht : (now - run.startedAt) / 1000 + 2 < max (q / 6) 8
  · rw [if_pos ht] at hsh
    refine ⟨fun _ => (hiff _).mpr hsh, iff_of_true ⟨_, _, (hiff _).mpr hsh⟩ ht, ?_, ?_⟩
    · intro xs hxs hlen
      rw [hiff, hsh]
      simp [ht]
    · intro xs
      rw [show (50 : ℝ) = ((50 : ℚ) : ℝ) by norm_num,
        Real.sqrt_lt' (by norm_num : (0:ℝ) < ((50:ℚ):ℝ))]
      constructor
      · intro h
        have : ((popVariance xs : ℚ) : ℝ) < ((2500 : ℚ) : ℝ) := by push_cast at h ⊢; linarith
        exact_mod_cast this
      · intro h
        have : ((popVariance xs : ℚ) : ℝ) < ((2500 : ℚ) : ℝ) := by exact_mod_cast h
        push_cast at this ⊢
        linarith
  · rw [if_neg ht] at hsh
    refine ⟨fun h => absurd h ht, ?_, ?_, ?_⟩
    · refine iff_of_false ?_ ht
      rintro ⟨n, e, he⟩
      rw [hiff, hsh] at he
      cases hxs : r.jumpIntervals with
      | none => rw [hxs] at he; exact absurd he (by simp)
      | some xs =>
        simp only [hxs] at he
        by_cases hlen : 10 ≤ xs.length
        · rw [if_pos hlen] at he
          by_cases hvar : popVariance xs < 2500
          · rw [if_pos hvar] at he; exact absurd he (by simp)
          · rw [if_neg hvar] at he; exact absurd he (by simp)
        · rw [if_neg hlen] at he; exact absurd he (by simp)
    · intro xs hxs hlen
      rw [hiff, hsh]
      simp only [hxs, if_pos hlen]
      by_cases hvar : popVariance xs < 2500
      · simp only [if_pos hvar]
        exact iff_of_true trivial ⟨ht, hvar⟩
      · simp only [if_neg hvar]
        exact iff_of_false (by simp) (fun hc => hvar hc.2)
    · intro xs
      rw [show (50 : ℝ) = ((50 : ℚ) : ℝ) by norm_num,
        Real.sqrt_lt' (by norm_num : (0:ℝ) < ((50:ℚ):ℝ))]
      constructor
      · intro h
        have : ((popVariance xs : ℚ) : ℝ) < ((2500 : ℚ) : ℝ) := by push_cast at h ⊢; linarith
        exact_mod_cast this
      · intro h
        have : ((popVariance xs : ℚ) : ℝ) < ((2500 : ℚ) : ℝ) := by exact_mod_cast h
        push_cast at this ⊢
        linarith

/-- C7: a non-admin submission with an unknown run id or a run owned by a
different player fails with the no-active-run error; a successful non-admin
submission deletes the run, so a second non-admin submission reusing the same
run id fails with the no-active-run error; an admin submission with a valid
score succeeds regardless of the runs map and leaves it unchanged. -/
theorem run_single_use :
    (∀ (now : ℚ) (r : SubmitReq) (st : ServerState) (p : Player) (q : ℚ),
        lookupA st.players r.playerId = some p → p.isAdmin = false →
        r.score = ScoreVal.fin q → ¬ q < 0 →
        (lookupA st.runs r.runId = none ∨
          ∃ run, lookupA st.runs r.runId = some run ∧ run.playerId ≠ r.playerId) →
        (submitScore now r st).2 = Except.error SubmitErr.noActiveRun)
    ∧ (∀ (now : ℚ) (r : SubmitReq) (st st' : ServerState) (b : Int) (p : Player),
        lookupA st.players r.playerId = some p → p.isAdmin = false →
        submitScore now r st = (st', Except.ok b) →
        lookupA st'.runs r.runId = none)
    ∧ (∀ (now : ℚ) (r : SubmitReq) (st st' : ServerState) (b : Int) (p : Player)
        (now2 : ℚ) (r2 : SubmitReq) (p2 : Player) (q2 : ℚ),
        lookupA st.players r.playerId = some p → p.isAdmin = false →
        submitScore now r st = (st', Except.ok b) →
        r2.runId = r.runId → lookupA st'.players r2.playerId = some p2 →
        p2.isAdmin = false → r2.score = ScoreVal.fin q2 → ¬ q2 < 0 →
        (submitScore now2 r2 st').2 = Except.error SubmitErr.noActiveRun)
    ∧ (∀ (now : ℚ) (r : SubmitReq) (st : ServerState) (p : Player) (q : ℚ),
        lookupA st.players r.playerId = some p → p.isAdmin = true →
        r.score = ScoreVal.fin q → ¬ q < 0 →
        ∃ b st', submitScore now r st = (st', Except.ok b) ∧ st'.runs = st.runs) := by
  have hko : ∀ (now : ℚ) (r : SubmitReq) (st st' : ServerState) (b : Int) (p : Player),
      lookupA st.players r.playerId = some p → p.isAdmin = false →
      submitScore now r st = (st', Except.ok b) →
      lookupA st'.runs r.runId = none := by
    intro now r st st' b p hp hadm hok
    obtain ⟨p', q, runs2, hp', hsc, hac, hruns⟩ := submitScore_ok_runs now r st st' b hok
    have hpp : p = p' := by rw [hp] at hp'; exact Option.some.inj hp'
    rw [← hpp] at hac
    rw [hruns, antiCheat_ok_nonadmin now q r p st.runs runs2 hadm hac]
    exact lookupA_eraseA_self st.runs r.runId
  have hnr : ∀ (now : ℚ) (r : SubmitReq) (st : ServerState) (p : Player) (q : ℚ),
      lookupA st.players r.playerId = some p → p.isAdmin = false →
      r.score = ScoreVal.fin q → ¬ q < 0 →
      (lookupA st.runs r.runId = none ∨
        ∃ run, lookupA st.runs r.runId = some run ∧ run.playerId ≠ r.playerId) →
      (submitScore now r st).2 = Except.error SubmitErr.noActiveRun := by
    intro now r st p q hp hadm hsc hq hrun
    exact (submitScore_snd_error_iff now r st p q _ hp hsc hq).mpr
      (antiCheat_noRun now q r p st.runs hadm hrun)
  refine ⟨hnr, hko, ?_, ?_⟩
  · intro now r st st' b p now2 r2 p2 q2 hp hadm hok hrid hp2 hadm2 hsc2 hq2
    have hnone := hko now r st st' b p hp hadm hok
    rw [← hrid] at hnone
    exact hnr now2 r2 st' p2 q2 hp2 hadm2 hsc2 hq2 (Or.inl hnone)
  · intro now r st p q hp hadm hsc hq
    exact submitScore_acOk now r st p q st.runs hp hsc hq
      (antiCheat_admin now q r p st.runs hadm)

/-- C9: a claim-grants poll returns the grants accumulated for the player and
clears them atomically: the drained entry is gone, an immediately repeated
poll returns the empty mapping, polls do not touch other players' pending
grants, grants queued for other players do not change this player's poll, and
after a drain a single queued grant is returned exactly once. -/
theorem claim_grants_drain (pg : Grants) (pid : String) :
    (claimGrants pg pid).1 = (lookupA pg pid).getD []
    ∧ (claimGrants (claimGrants pg pid).2 pid).1 = []
    ∧ lookupA (claimGrants pg pid).2 pid = none
    ∧ (∀ pid', pid' ≠ pid → lookupA (claimGrants pg pid).2 pid' = lookupA pg pid')
    ∧ (∀ pid' item count, pid' ≠ pid →
        (claimGrants (queueGrant pg pid' item count) pid).1 = (claimGrants pg pid).1)
    ∧ (∀ item count,
        (claimGrants (queueGrant (claimGrants pg pid).2 pid item count) pid).1 =
          [(item, count)]) := by
  refine ⟨rfl, ?_, ?_, ?_, ?_, ?_⟩
  · simp [claimGrants, lookupA_eraseA_self]
  · exact lookupA_eraseA_self pg pid
  · intro pid' hne
    exact lookupA_eraseA_ne pg pid pid' hne
  · intro pid' item count hne
    simp [claimGrants, queueGrant, lookupA_setA_ne _ _ _ _ (Ne.symm hne)]
  · intro item count
    simp [claimGrants, queueGrant, lookupA_eraseA_self, lookupA_setA_self, setA, lookupA]

theorem adminVerifyClaim_ok (sha : String → String) (ak day pid secret now : String)
    (ws : List (String × Winner)) (w : Winner)
    (hw : lookupA ws day = some w) (hpid : w.playerId = pid)
    (hh : sha secret = w.claimHash) :
    adminVerifyClaim sha ak ak day pid secret ws now =
      Except.ok ({ w with verified := true, verifiedAt := some now },
        setA ws day { w with verified := true, verifiedAt := some now }) := by
  unfold adminVerifyClaim
  rw [hw]
  simp [hpid, hh]

theorem adminVerifyClaim_badSecret (sha : String → String) (ak day pid secret now : String)
    (ws : List (String × Winner)) (w : Winner)
    (hw : lookupA ws day = some w) (hpid : w.playerId = pid)
    (hh : sha secret ≠ w.claimHash) :
    adminVerifyClaim sha ak ak day pid secret ws now =
      Except.error VerifyErr.badSecret := by
  unfold adminVerifyClaim
  rw [hw]
  simp [hpid, hh]

theorem verifyWinner_ok (sha : String → String) (pid code secret now : String)
    (ws : List (String × Winner)) (day : String) (w : Winner)
    (hp : pid ≠ "") (hc : code ≠ "") (hs : secret ≠ "")
    (hfind : ws.find? (fun kv => kv.2.playerId == pid && kv.2.claimCode == code)
      = some (day, w))
    (hh : sha secret = w.claimHash) :
    verifyWinner sha pid code secret ws now =
      Except.ok ({ w with verified := true, verifiedAt := some now },
        setA ws day { w with verified := true, verifiedAt := some now }) := by
  unfold verifyWinner
  simp [hp, hc, hs, hfind, hh]

theorem verifyWinner_badSecret (sha : String → String) (pid code secret now : String)
    (ws : List (String × Winner)) (day : String) (w : Winner)
    (hp : pid ≠ "") (hc : code ≠ "") (hs : secret ≠ "")
    (hfind : ws.find? (fun kv => kv.2.playerId == pid && kv.2.claimCode == code)
      = some (day, w))
    (hh : sha secret ≠ w.claimHash) :
    verifyWinner sha pid code secret ws now =
      Except.error VerifyErr.invalidVerification := by
  unfold verifyWinner
  simp [hp, hc, hs, hfind, hh]

theorem find?_setA_of_found {β : Type u} (ws : List (String × β)) (day : String)
    (w w2 : β) (pred : String × β → Bool)
    (hnd : (ws.map Prod.fst).Nodup)
    (hfind : ws.find? pred = some (day, w))
    (hpred2 : pred (day, w2) = true) :
    (setA ws day w2).find? pred = some (day, w2) := by
  induction ws with
  | nil => simp at hfind
  | cons hd tl ih =>
    by_cases hp : pred hd
    · rw [List.find?_cons_of_pos _ hp] at hfind
      obtain rfl : hd = (day, w) := Option.some.inj hfind
      simp only [setA, if_pos rfl]
      exact List.find?_cons_of_pos _ hpred2
    · rw [List.find?_cons_of_neg _ hp] at hfind
      have hmem : (day, w) ∈ tl := List.mem_of_find?_eq_some hfind
      have hdmem : day ∈ tl.map Prod.fst := List.mem_map_of_mem Prod.fst hmem
      have hne : hd.1 ≠ day := by
        intro hcontra
        rw [List.map_cons, List.nodup_cons] at hnd
        exact hnd.1 (hcontra ▸ hdmem)
      have hndtl : (tl.map Prod.fst).Nodup := by
        rw [List.map_cons, List.nodup_cons] at hnd
        exact hnd.2
      obtain ⟨k0, v0⟩ := hd
      simp only [setA, if_neg hne]
      rw [List.find?_cons_of_neg _ hp]
      exact ih hndtl hfind

/-- C3: with `H = sha(secret)` stored in a winner record, both the admin path
and the self-service path verify a claim exactly when the supplied secret
hashes to `H`: on a hash match they set `verified`, record the verification
time and leave every other field (in particular `paid` and `claimHash`)
unchanged; on a mismatch they fail with the respective invalid-claim error
and return no updated state; and a repeated verification with the correct
secret succeeds again. -/
theorem claim_verification (sha : String → String) :
    (∀ (ak day pid secret now : String) (ws : List (String × Winner)) (w : Winner),
      lookupA ws day = some w → w.playerId = pid →
      (sha secret = w.claimHash →
        adminVerifyClaim sha ak ak day pid secret ws now =
          Except.ok ({ w with verified := true, verifiedAt := some now },
            setA ws day { w with verified := true, verifiedAt := some now }))
      ∧ (sha secret ≠ w.claimHash →
        adminVerifyClaim sha ak ak day pid secret ws now =
          Except.error VerifyErr.badSecret))
    ∧ (∀ (pid code secret now : String) (ws : List (String × Winner))
        (day : String) (w : Winner),
      pid ≠ "" → code ≠ "" → secret ≠ "" →
      ws.find? (fun kv => kv.2.playerId == pid && kv.2.claimCode == code)
        = some (day, w) →
      (sha secret = w.claimHash →
        verifyWinner sha pid code secret ws now =
          Except.ok ({ w with verified := true, verifiedAt := some now },
            setA ws day { w with verified := true, verifiedAt := some now }))
      ∧ (sha secret ≠ w.claimHash →
        verifyWinner sha pid code secret ws now =
          Except.error VerifyErr.invalidVerification))
    ∧ (∀ (w : Winner) (now : String),
        ({ w with verified := true, verifiedAt := some now }).paid = w.paid ∧
        ({ w with verified := true, verifiedAt := some now }).claimHash = w.claimHash ∧
        ({ w with verified := true, verifiedAt := some now }).playerId = w.playerId ∧
        ({ w with verified := true, verifiedAt := some now }).claimCode = w.claimCode)
    ∧ (∀ (ak day pid secret now now2 : String) (ws : List (String × Winner))
        (w w' : Winner) (ws' : List (String × Winner)),
      lookupA ws day = some w → w.playerId = pid →
      adminVerifyClaim sha ak ak day pid secret ws now = Except.ok (w', ws') →
      adminVerifyClaim sha ak ak day pid secret ws' now2 =
        Except.ok ({ w' with verified := true, verifiedAt := some now2 },
          setA ws' day { w' with verified := true, verifiedAt := some now2 }) ∧
      w'.paid = w.paid)
    ∧ (∀ (pid code secret now now2 : String) (ws : List (String × Winner))
        (day : String) (w w' : Winner) (ws' : List (String × Winner)),
      (ws.map Prod.fst).Nodup →
      pid ≠ "" → code ≠ "" → secret ≠ "" →
      ws.find? (fun kv => kv.2.playerId == pid && kv.2.claimCode == code)
        = some (day, w) →
      verifyWinner sha pid code secret ws now = Except.ok (w', ws') →
      verifyWinner sha pid code secret ws' now2 =
        Except.ok ({ w' with verified := true, verifiedAt := some now2 },
          setA ws' day { w' with verified := true, verifiedAt := some now2 }) ∧
      w'.paid = w.paid) := by
  refine ⟨?_, ?_, ?_, ?_, ?_⟩
  · intro ak day pid secret now ws w hw hpid
    exact ⟨adminVerifyClaim_ok sha ak day pid secret now ws w hw hpid,
      adminVerifyClaim_badSecret sha ak day pid secret now ws w hw hpid⟩
  · intro pid code secret now ws day w hp hc hs hfind
    exact ⟨verifyWinner_ok sha pid code secret now ws day w hp hc hs hfind,
      verifyWinner_badSecret sha pid code secret now ws day w hp hc hs hfind⟩
  · intro w now
    exact ⟨rfl, rfl, rfl, rfl⟩
  · intro ak day pid secret now now2 ws w w' ws' hw hpid hok
    by_cases hh : sha secret = w.claimHash
    · rw [adminVerifyClaim_ok sha ak day pid secret now ws w hw hpid hh] at hok
      obtain ⟨hw', hws'⟩ := Prod.mk.injEq .. ▸ Except.ok.inj hok
      subst hw'
      subst hws'
      constructor
      · exact adminVerifyClaim_ok sha ak day pid secret now2 _ _
          (lookupA_setA_self ws day _) hpid hh
      · rfl
    · rw [adminVerifyClaim_badSecret sha ak day pid secret now ws w hw hpid hh] at hok
      exact absurd hok (by simp)
  · intro pid code secret now now2 ws day w w' ws' hnd hp hc hs hfind hok
    have hpred := List.find?_some hfind
    by_cases hh : sha secret = w.claimHash
    · rw [verifyWinner_ok sha pid code secret now ws day w hp hc hs hfind hh] at hok
      obtain ⟨hw', hws'⟩ := Prod.mk.injEq .. ▸ Except.ok.inj hok
      subst hw'
      subst hws'
      have hfind2 : (setA ws day { w with verified := true, verifiedAt := some now }).find?
          (fun kv => kv.2.playerId == pid && kv.2.claimCode == code)
          = some (day, { w with verified := true, verifiedAt := some now }) :=
        find?_setA_of_found ws day w _ _ hnd hfind (by simpa using hpred)
      constructor
      · exact verifyWinner_ok sha pid code secret now2 _ day _ hp hc hs hfind2 hh
      · rfl
    · rw [verifyWinner_badSecret sha pid code secret now ws day w hp hc hs hfind hh] at hok
      exact absurd hok (by simp)

/-- C2 counterexample: on a state holding one winner record with stored claim
hash `"deadbeef"`, the non-admin endpoints `GET /yesterday-winner` and
`GET /winners` both return the record with its `claimHash` field, refuting
the claim that no non-admin endpoint response contains the stored claim
hash (`GET /me/winner` indeed omits it). -/
theorem winner_endpoints_expose_claim_hash :
    objField (yesterdayWinner sampleWinners) "claimHash" = some (Json.str "deadbeef")
    ∧ jsonHead (winnersEndpoint sampleWinners none) = some (winnerJson sampleWinner)
    ∧ objField (winnerJson sampleWinner) "claimHash" = some (Json.str "deadbeef")
    ∧ objField (meWinner [("p1", samplePlayer)] sampleWinners "p1") "claimHash" = none := by
  refine ⟨rfl, rfl, rfl, rfl⟩

/-- C2 amended: the `GET /me/winner` response never carries a `claimHash`
field (its only fields are `day`, `prize`, `verified`, `paid`, or it is
`null`); the other two winner endpoints return the full stored record,
claim hash included. -/
theorem me_winner_no_claim_hash (players : List (String × Player))
    (ws : List (String × Winner)) (playerId : String) :
    objField (meWinner players ws playerId) "claimHash" = none := by
  unfold meWinner
  split
  · rfl
  · split
    · rfl
    · split
      · rfl
      · split
        · simp [objField, lookupA]
        · rfl

/-- C10: `use-item FLASHBANG` succeeds for any registered player with no
credit check, deduction or required purchase (the result does not depend on
the player record at all), emits the flashbang event to at most 50 connected
ids other than the sender — chosen from the connected ids with no regard to
any `flashShieldActive` flag — and returns the server state (players,
leaderboards, winners, pending grants) unchanged. -/
theorem flashbang_no_state_change (shuffle : List String → List String) (ts : ℚ)
    (pid : String) (st : ServerState) (sseIds : List String) (p : Player)
    (hp : lookupA st.players pid = some p)
    (hperm : (shuffle (sseIds.filter (fun id => id != pid))).Perm
      (sseIds.filter (fun id => id != pid))) :
    ∃ evts, useItemFlashbang shuffle ts pid st sseIds = Except.ok (st, evts)
      ∧ evts.length ≤ 50
      ∧ (∀ ev ∈ evts, ev.target ∈ sseIds ∧ ev.target ≠ pid ∧
          ev.sentBy = pid ∧ ev.ts = ts)
      ∧ (∀ st2 : ServerState, (lookupA st2.players pid).isSome →
          useItemFlashbang shuffle ts pid st2 sseIds = Except.ok (st2, evts)) := by
  refine ⟨((shuffle (sseIds.filter (fun id => id != pid))).take 50).map
    (fun id => { target := id, sentBy := pid, ts := ts }), ?_, ?_, ?_, ?_⟩
  · unfold useItemFlashbang
    rw [hp]
  · rw [List.length_map, List.length_take]
    exact min_le_left _ _
  · intro ev hev
    rw [List.mem_map] at hev
    obtain ⟨id, hid, rfl⟩ := hev
    have hpool : id ∈ sseIds.filter (fun id => id != pid) :=
      hperm.mem_iff.mp (List.mem_of_mem_take hid)
    rw [List.mem_filter] at hpool
    exact ⟨hpool.1, by simpa using hpool.2, rfl, rfl⟩
  · intro st2 hsome
    rw [Option.isSome_iff_exists] at hsome
    obtain ⟨p2, hp2⟩ := hsome
    unfold useItemFlashbang
    rw [hp2]

theorem dropWhile_dropWhile {α : Type u} (p : α → Bool) (l : List α) :
    (l.dropWhile p).dropWhile p = l.dropWhile p := by
  induction l with
  | nil => rfl
  | cons c cs ih =>
    by_cases h : p c
    · simp [List.dropWhile_cons, h, ih]
    · simp [List.dropWhile_cons, h]

theorem dropWhile_head_false {α : Type u} (p : α → Bool) (l : List α) (c : α)
    (h : (l.dropWhile p).head? = some c) : p c = false := by
  induction l with
  | nil => simp at h
  | cons a cs ih =>
    by_cases ha : p a
    · rw [List.dropWhile_cons, if_pos ha] at h
      exact ih h
    · rw [List.dropWhile_cons, if_neg ha] at h
      obtain rfl := Option.some.inj h
      exact Bool.not_eq_true _ ▸ Bool.of_not_eq_true ha

theorem dropWhile_eq_self_of_head {α : Type u} (p : α → Bool) (l : List α)
    (h : ∀ c, l.head? = some c → p c = false) : l.dropWhile p = l := by
  cases l with
  | nil => rfl
  | cons a cs =>
    rw [List.dropWhile_cons, if_neg]
    simp [h a rfl]

theorem dropWhile_suffix_decomp {α : Type u} (p : α → Bool) (l : List α) :
    ∃ t, l = t ++ l.dropWhile p := by
  induction l with
  | nil => exact ⟨[], rfl⟩
  | cons a cs ih =>
    by_cases ha : p a
    · obtain ⟨t, ht⟩ := ih
      exact ⟨a :: t, by rw [List.dropWhile_cons, if_pos ha, List.cons_append, ← ht]⟩
    · exact ⟨[], by rw [List.dropWhile_cons, if_neg ha, List.nil_append]⟩

theorem head_reverse_dropWhile {α : Type u} (p : α → Bool) (l : List α)
    (h : l.dropWhile p ≠ []) :
    (l.dropWhile p).reverse.head? = l.reverse.head? := by
  obtain ⟨t, ht⟩ := dropWhile_suffix_decomp p l
  conv_rhs => rw [ht]
  rw [List.reverse_append]
  cases hr : (l.dropWhile p).reverse with
  | nil => exact absurd (by simpa using hr) h
  | cons x xs => simp [hr]

theorem trimChars_idem (l : List Char) : trimChars (trimChars l) = trimChars l := by
  by_cases hD : l.dropWhile Char.isWhitespace = []
  · unfold trimChars
    rw [hD]
    rfl
  · have hu : trimChars l =
        ((l.dropWhile Char.isWhitespace).reverse.dropWhile Char.isWhitespace).reverse := rfl
    set u := (l.dropWhile Char.isWhitespace).reverse.dropWhile Char.isWhitespace with hu2
    by_cases hun : u = []
    · rw [trimChars, hu, hun]
      rfl
    · have hhead : ∀ c, u.reverse.head? = some c → Char.isWhitespace c = false := by
        intro c hc
        have h1 : u.reverse.head? = (l.dropWhile Char.isWhitespace).reverse.reverse.head? := by
          rw [hu2]
          exact head_reverse_dropWhile Char.isWhitespace
            (l.dropWhile Char.isWhitespace).reverse (by rwa [← hu2])
        rw [h1, List.reverse_reverse] at hc
        exact dropWhile_head_false Char.isWhitespace l c hc
      have hstep1 : u.reverse.dropWhile Char.isWhitespace = u.reverse :=
        dropWhile_eq_self_of_head Char.isWhitespace u.reverse hhead
      rw [trimChars, hu]
      rw [hstep1, List.reverse_reverse, hu2, dropWhile_dropWhile]

theorem jsTrim_idem (s : String) : jsTrim (jsTrim s) = jsTrim s := by
  unfold jsTrim
  rw [trimChars_idem]

theorem removeAllAux_not_contains (pat : List Char) (fuel : Nat) (l : List Char)
    (h : containsCL pat l = false) : removeAllAux pat fuel l = l := by
  induction fuel generalizing l with
  | zero => cases l <;> rfl
  | succ n ih =>
    cases l with
    | nil => rfl
    | cons c cs =>
      rw [containsCL, Bool.or_eq_false_iff] at h
      rw [removeAllAux, if_neg (fun hc => by rw [h.1] at hc; exact absurd hc.2 (by simp))]
      rw [ih cs h.2]

/-- C8 amended: `POST /register` rejects a name that is empty after trimming
or longer than 32 characters; an accepted registration stores a display name
of at most 16 characters, echoes exactly the stored name in the response, and
the stored name is nonempty whenever the submitted name does not contain the
admin trigger — a name consisting of the trigger (plus whitespace) is
accepted yet stored with an empty display name. -/
theorem register_name_rules (nameField uuid : String) :
    ((jsTrim nameField = "" ∨ 32 < (jsTrim nameField).length) →
      register nameField uuid = RegisterResult.invalidName)
    ∧ (∀ pid p resp, register nameField uuid = RegisterResult.ok pid p resp →
        pid = uuid ∧ resp = p.name ∧ p.name.length ≤ 16 ∧
        (containsStr (jsTrim nameField) ADMIN_TRIGGER = false → 1 ≤ p.name.length)) := by
  constructor
  · intro h
    unfold register
    rw [if_pos h]
  · intro pid p resp h
    unfold register at h
    simp only [] at h
    split at h
    · exact absurd h (by simp)
    next hcond =>
      rw [RegisterResult.ok.injEq] at h
      obtain ⟨hpid, hp, hresp⟩ := h
      subst hpid
      subst hp
      subst hresp
      refine ⟨rfl, rfl, ?_, ?_⟩
      · show (⟨((jsTrim (removeAllStr (jsTrim nameField) ADMIN_TRIGGER)).data.take 16 : List Char)⟩ : String).length ≤ 16
        show ((jsTrim (removeAllStr (jsTrim nameField) ADMIN_TRIGGER)).data.take 16).length ≤ 16
        rw [List.length_take]
        exact min_le_left _ _
      · intro hnc
        have hraw : jsTrim nameField ≠ "" := fun hc => hcond (Or.inl hc)
        have hrm : removeAllStr (jsTrim nameField) ADMIN_TRIGGER = jsTrim nameField := by
          unfold removeAllStr
          rw [removeAllAux_not_contains _ _ _ hnc]
        have htrim : jsTrim (removeAllStr (jsTrim nameField) ADMIN_TRIGGER) =
            jsTrim nameField := by
          rw [hrm, jsTrim_idem]
        show 1 ≤ (⟨((jsTrim (removeAllStr (jsTrim nameField) ADMIN_TRIGGER)).data.take 16 : List Char)⟩ : String).length
        show 1 ≤ ((jsTrim (removeAllStr (jsTrim nameField) ADMIN_TRIGGER)).data.take 16).length
        rw [htrim, List.length_take]
        have hne : (jsTrim nameField).data ≠ [] := by
          intro hc
          exact hraw (by cases hj : jsTrim nameField with
            | mk data => rw [hj] at hc; simp at hc; rw [hc])
        have hlen : 1 ≤ (jsTrim nameField).data.length := by
          cases hd : (jsTrim nameField).data with
          | nil => exact absurd hd hne
          | cons a t => simp
        omega

/-- C8 counterexample: the name `"xfiles75"` (exactly the admin trigger)
passes registration validation, but the stored display name — the trigger
stripped out — is empty, contradicting the claimed 1-to-16-character bound on
accepted names. -/
theorem register_trigger_only_name_empty :
    ∃ p : Player, register "xfiles75" "11111111-2222" =
      RegisterResult.ok "11111111-2222" p p.name ∧ p.name.length = 0 := by
  refine ⟨Player.mk "" 9999 false 0 true "drop-11111111", ?_, rfl⟩
  rfl

theorem sortDesc_head (l : List LBEntry) : (sortDesc l).head? = firstMax l := by
  induction l with
  | nil => rfl
  | cons e rest ih =>
    simp only [sortDesc, firstMax]
    cases hs : sortDesc rest with
    | nil =>
      have hn : firstMax rest = none := by rw [← ih, hs]; rfl
      rw [hn]
      rfl
    | cons x t =>
      have hx : firstMax rest = some x := by rw [← ih, hs]; rfl
      rw [hx]
      by_cases hc : x.score ≤ e.score
      · rw [insertDesc, if_pos hc]
        simp [not_lt.mpr hc]
      · rw [insertDesc, if_neg hc]
        simp [lt_of_not_le hc]

theorem firstMax_ne_none (a : LBEntry) (l : List LBEntry) : firstMax (a :: l) ≠ none := by
  simp only [firstMax]
  cases firstMax l <;> simp

theorem firstMax_spec (l : List LBEntry) : ∀ (e : LBEntry), firstMax l = some e →
    ∃ pre post, l = pre ++ e :: post ∧ (∀ y ∈ pre, y.score < e.score) ∧
      (∀ y ∈ l, y.score ≤ e.score) := by
  induction l with
  | nil => intro e h; exact absurd h (by simp [firstMax])
  | cons a rest ih =>
    intro e h
    simp only [firstMax] at h
    cases hr : firstMax rest with
    | none =>
      rw [hr] at h
      obtain rfl := Option.some.inj h
      cases rest with
      | nil => exact ⟨[], [], rfl, by simp, by simp⟩
      | cons b t => exact absurd hr (firstMax_ne_none b t)
    | some m =>
      rw [hr] at h
      have h2 : some (if a.score < m.score then m else a) = some e := h
      obtain ⟨pre', post', hsplit, hpre', hall'⟩ := ih m hr
      by_cases ha : a.score < m.score
      · rw [if_pos ha] at h2
        obtain rfl := Option.some.inj h2
        refine ⟨a :: pre', post', by rw [hsplit]; rfl, ?_, ?_⟩
        · intro y hy
          rcases List.mem_cons.mp hy with hy | hy
          · rw [hy]; exact ha
          · exact hpre' y hy
        · intro y hy
          rcases List.mem_cons.mp hy with hy | hy
          · rw [hy]; exact le_of_lt ha
          · exact hall' y hy
      · rw [if_neg ha] at h2
        obtain rfl := Option.some.inj h2
        refine ⟨[], rest, rfl, by simp, ?_⟩
        intro y hy
        rcases List.mem_cons.mp hy with hy | hy
        · rw [hy]
        · exact le_trans (hall' y hy) (le_of_not_lt ha)

theorem rolloverTick_stable (nowKey : String) (now : ℚ) (secret code : String)
    (hash : String → String) (st : ServerState) (h : nowKey = st.currentDay) :
    rolloverTick nowKey now secret code hash st =
      { st with runs := cleanupOldRuns now st.runs } := by
  unfold rolloverTick
  rw [if_pos h]

theorem rolloverTick_currentDay (nowKey : String) (now : ℚ) (secret code : String)
    (hash : String → String) (st : ServerState) :
    (rolloverTick nowKey now secret code hash st).currentDay = nowKey := by
  unfold rolloverTick
  by_cases h : nowKey = st.currentDay
  · rw [if_pos h]
    exact h.symm
  · rw [if_neg h]

theorem rolloverTick_winners_other (nowKey : String) (now : ℚ) (secret code : String)
    (hash : String → String) (st : ServerState) (d : String) (hd : d ≠ st.currentDay) :
    lookupA (rolloverTick nowKey now secret code hash st).winners d =
      lookupA st.winners d := by
  unfold rolloverTick
  by_cases h : nowKey = st.currentDay
  · rw [if_pos h]
  · rw [if_neg h]
    simp only []
    split
    · rfl
    · exact lookupA_setA_ne _ _ _ _ hd

theorem rolloverTick_winners_empty (nowKey : String) (now : ℚ) (secret code : String)
    (hash : String → String) (st : ServerState) (h : nowKey ≠ st.currentDay)
    (hlb : (lookupA st.leaderboards st.currentDay).getD [] = []) :
    (rolloverTick nowKey now secret code hash st).winners = st.winners := by
  unfold rolloverTick
  rw [if_neg h]
  simp only []
  rw [lookupA_ensureDay_ne _ _ _ (Ne.symm h), hlb]
  rfl

theorem rolloverTick_winners_top (nowKey : String) (now : ℚ) (secret code : String)
    (hash : String → String) (st : ServerState) (e : LBEntry)
    (h : nowKey ≠ st.currentDay)
    (htop : firstMax (((lookupA st.leaderboards st.currentDay).getD []).map Prod.snd)
      = some e) :
    lookupA (rolloverTick nowKey now secret code hash st).winners st.currentDay =
      some (mkWinner st.currentDay e st.moneyDrop (hash secret) code) := by
  unfold rolloverTick
  rw [if_neg h]
  simp only []
  rw [lookupA_ensureDay_ne _ _ _ (Ne.symm h)]
  have hhead : (sortDesc (((lookupA st.leaderboards st.currentDay).getD []).map
      Prod.snd)).head? = some e := by
    rw [sortDesc_head]
    exact htop
  cases hs : sortDesc (((lookupA st.leaderboards st.currentDay).getD []).map Prod.snd) with
  | nil => rw [hs] at hhead; exact absurd hhead (by simp)
  | cons x t =>
    rw [hs] at hhead
    obtain rfl : x = e := by simpa using hhead
    exact lookupA_setA_self st.winners st.currentDay _

theorem runTicks_winners_preserved (hash : String → String) (l : List TickIn) :
    ∀ (st : ServerState) (d : String),
      List.Chain (fun a b => a ≤ b) st.currentDay (l.map TickIn.nowKey) →
      d < st.currentDay →
      lookupA (runTicks hash st l).winners d = lookupA st.winners d := by
  induction l with
  | nil => intro st d _ _; rfl
  | cons t rest ih =>
    intro st d hchain hd
    rw [List.map_cons, List.chain_cons] at hchain
    obtain ⟨h1, h2⟩ := hchain
    have hcd : (rolloverTick t.nowKey t.now t.secret t.code hash st).currentDay
        = t.nowKey := rolloverTick_currentDay t.nowKey t.now t.secret t.code hash st
    have hd2 : d < t.nowKey := lt_of_lt_of_le hd h1
    show lookupA (runTicks hash (rolloverTick t.nowKey t.now t.secret t.code hash st)
      rest).winners d = lookupA st.winners d
    rw [ih (rolloverTick t.nowKey t.now t.secret t.code hash st) d
      (by rw [hcd]; exact h2) (by rw [hcd]; exact hd2)]
    exact rolloverTick_winners_other t.nowKey t.now t.secret t.code hash st d
      (ne_of_lt hd)

/-- C4: a rollover tick whose day key equals the current day changes nothing
but the old-run sweep (so repeated ticks within one day perform exactly one
transition); a transition adopts the new key; the closed day's winner record
is created exactly when the closed board is nonempty, naming the first entry
that attains the maximum score; and under monotonically advancing day keys
the winner record of an already-closed day is never touched again — it is
created at most once. -/
theorem rollover_one_transition_per_day (hash : String → String) :
    (∀ (nowKey : String) (now : ℚ) (secret code : String) (st : ServerState),
        nowKey = st.currentDay →
        rolloverTick nowKey now secret code hash st =
          { st with runs := cleanupOldRuns now st.runs })
    ∧ (∀ (nowKey : String) (now : ℚ) (secret code : String) (st : ServerState),
        (rolloverTick nowKey now secret code hash st).currentDay = nowKey)
    ∧ (∀ (nowKey : String) (now now2 : ℚ) (secret code secret2 code2 : String)
        (st : ServerState),
        rolloverTick nowKey now2 secret2 code2 hash
            (rolloverTick nowKey now secret code hash st) =
          { rolloverTick nowKey now secret code hash st with
              runs := cleanupOldRuns now2
                (rolloverTick nowKey now secret code hash st).runs })
    ∧ (∀ (nowKey : String) (now : ℚ) (secret code : String) (st : ServerState),
        nowKey ≠ st.currentDay →
        ((lookupA st.leaderboards st.currentDay).getD [] = [] →
          (rolloverTick nowKey now secret code hash st).winners = st.winners)
        ∧ (((lookupA st.leaderboards st.currentDay).getD []).map Prod.snd ≠ [] →
          ∃ e, firstMax (((lookupA st.leaderboards st.currentDay).getD []).map Prod.snd)
              = some e ∧
            lookupA (rolloverTick nowKey now secret code hash st).winners st.currentDay
              = some (mkWinner st.currentDay e st.moneyDrop (hash secret) code) ∧
            ∃ pre post,
              ((lookupA st.leaderboards st.currentDay).getD []).map Prod.snd
                = pre ++ e :: post ∧
              (∀ y ∈ pre, y.score < e.score) ∧
              (∀ y ∈ ((lookupA st.leaderboards st.currentDay).getD []).map Prod.snd,
                y.score ≤ e.score)))
    ∧ (∀ (l : List TickIn) (st : ServerState) (d : String),
        List.Chain (fun a b => a ≤ b) st.currentDay (l.map TickIn.nowKey) →
        d < st.currentDay →
        lookupA (runTicks hash st l).winners d = lookupA st.winners d) := by
  refine ⟨?_, ?_, ?_, ?_, ?_⟩
  · intro nowKey now secret code st h
    exact rolloverTick_stable nowKey now secret code hash st h
  · intro nowKey now secret code st
    exact rolloverTick_currentDay nowKey now secret code hash st
  · intro nowKey now now2 secret code secret2 code2 st
    exact rolloverTick_stable nowKey now2 secret2 code2 hash _
      (rolloverTick_currentDay nowKey now secret code hash st).symm
  · intro nowKey now secret code st hne
    constructor
    · intro hemp
      exact rolloverTick_winners_empty nowKey now secret code hash st hne hemp
    · intro hnemp
      cases hfm : firstMax (((lookupA st.leaderboards st.currentDay).getD []).map
          Prod.snd) with
      | none =>
        cases hl : ((lookupA st.leaderboards st.currentDay).getD []).map Prod.snd with
        | nil => exact absurd hl hnemp
        | cons b t => rw [hl] at hfm; exact absurd hfm (firstMax_ne_none b t)
      | some e =>
        obtain ⟨pre, post, hsplit, hpre, hall⟩ := firstMax_spec _ e hfm
        refine ⟨e, rfl, ?_, pre, post, hsplit, hpre, hall⟩
        exact rolloverTick_winners_top nowKey now secret code hash st e hne hfm
  · intro l st d hchain hd
    exact runTicks_winners_preserved hash l st d hchain hd

theorem applySaves_players (prevA : List (String × LBEntry))
    (ps : List (String × Player)) :
    ∀ (lb : List (String × LBEntry)),
      (applySaves prevA ps lb).1 =
        ps.map (fun kv => (kv.1, saveAdjust prevA kv.1 kv.2)) := by
  induction ps with
  | nil => intro lb; rfl
  | cons hd tl ih =>
    intro lb
    obtain ⟨pid, p⟩ := hd
    simp only [applySaves, List.map_cons]
    by_cases h1 : 0 < p.saveFromReset
    · cases hprev : lookupA prevA pid with
      | none =>
        simp only [if_pos h1, hprev]
        rw [ih lb]
        congr 1
        simp [saveAdjust, h1, hprev]
      | some prev =>
        by_cases h2 : 0 < prev.score
        · simp only [if_pos h1, hprev, if_pos h2]
          rw [ih _]
          congr 1
          simp [saveAdjust, h1, hprev, h2]
        · simp only [if_pos h1, hprev, if_neg h2]
          rw [ih lb]
          congr 1
          simp [saveAdjust, h1, hprev, h2]
    · simp only [if_neg h1]
      rw [ih lb]
      congr 1
      simp [saveAdjust, h1]

theorem lookupA_map_adjust (prevA : List (String × LBEntry))
    (ps : List (String × Player)) (pid : String) :
    lookupA (ps.map (fun kv => (kv.1, saveAdjust prevA kv.1 kv.2))) pid =
      (lookupA ps pid).map (saveAdjust prevA pid) := by
  induction ps with
  | nil => rfl
  | cons hd tl ih =>
    obtain ⟨k, v⟩ := hd
    by_cases h : k = pid
    · subst h
      simp [lookupA]
    · simp [lookupA, h, ih]

theorem applySaves_lb_not_mem (prevA : List (String × LBEntry))
    (ps : List (String × Player)) (pid : String)
    (h : pid ∉ ps.map Prod.fst) :
    ∀ (lb : List (String × LBEntry)),
      lookupA (applySaves prevA ps lb).2 pid = lookupA lb pid := by
  induction ps with
  | nil => intro lb; rfl
  | cons hd tl ih =>
    intro lb
    obtain ⟨k, p⟩ := hd
    rw [List.map_cons, List.mem_cons] at h
    push_neg at h
    obtain ⟨hk, htl⟩ := h
    simp only [applySaves]
    by_cases h1 : 0 < p.saveFromReset
    · cases hprev : lookupA prevA k with
      | none => simp only [h1, if_pos h1, hprev]; exact ih htl lb
      | some prev =>
        by_cases h2 : 0 < prev.score
        · simp only [if_pos h1, hprev, if_pos h2]
          rw [ih htl _, lookupA_setA_ne _ _ _ _ hk]
        · simp only [if_pos h1, hprev, if_neg h2]
          exact ih htl lb
    · simp only [if_neg h1]
      exact ih htl lb

theorem applySaves_lb_lookup (prevA : List (String × LBEntry))
    (ps : List (String × Player)) (pid : String) (p : Player)
    (hnd : (ps.map Prod.fst).Nodup) (hp : lookupA ps pid = some p) :
    ∀ (lb : List (String × LBEntry)),
      lookupA (applySaves prevA ps lb).2 pid = savedEntry prevA pid p (lookupA lb pid) := by
  induction ps with
  | nil => intro lb; exact absurd hp (by simp [lookupA])
  | cons hd tl ih =>
    intro lb
    obtain ⟨k, v⟩ := hd
    rw [List.map_cons, List.nodup_cons] at hnd
    by_cases hk : k = pid
    · subst hk
      have hv : v = p := by simpa [lookupA] using hp
      subst hv
      have hnm : k ∉ tl.map Prod.fst := hnd.1
      simp only [applySaves, savedEntry]
      by_cases h1 : 0 < v.saveFromReset
      · cases hprev : lookupA prevA k with
        | none =>
          simp only [if_pos h1, hprev]
          exact applySaves_lb_not_mem prevA tl k hnm lb
        | some prev =>
          by_cases h2 : 0 < prev.score
          · simp only [if_pos h1, hprev, if_pos h2, if_pos (And.intro h1 h2)]
            rw [applySaves_lb_not_mem prevA tl k hnm _, lookupA_setA_self]
          · simp only [if_pos h1, hprev, if_neg h2,
              if_neg (fun hc : 0 < v.saveFromReset ∧ 0 < prev.score => h2 hc.2)]
            exact applySaves_lb_not_mem prevA tl k hnm lb
      · cases hprev : lookupA prevA k with
        | none =>
          simp only [if_neg h1, hprev]
          exact applySaves_lb_not_mem prevA tl k hnm lb
        | some prev =>
          simp only [if_neg h1, hprev,
            if_neg (fun hc : 0 < v.saveFromReset ∧ 0 < prev.score => h1 hc.1)]
          exact applySaves_lb_not_mem prevA tl k hnm lb
    · have hp2 : lookupA tl pid = some p := by
        simpa [lookupA, hk] using hp
      simp only [applySaves]
      by_cases h1 : 0 < v.saveFromReset
      · cases hprev : lookupA prevA k with
        | none => simp only [if_pos h1, hprev]; exact ih hnd.2 hp2 lb
        | some prev =>
          by_cases h2 : 0 < prev.score
          · simp only [if_pos h1, hprev, if_pos h2]
            rw [ih hnd.2 hp2 _,
              lookupA_setA_ne _ _ _ _ (fun hc => hk hc.symm)]
          · simp only [if_pos h1, hprev, if_neg h2]
            exact ih hnd.2 hp2 lb
      · simp only [if_neg h1]
        exact ih hnd.2 hp2 lb

theorem rolloverTick_transition_parts (nowKey : String) (now : ℚ) (secret code : String)
    (hash : String → String) (st : ServerState) (hne : nowKey ≠ st.currentDay) :
    (rolloverTick nowKey now secret code hash st).players =
      (applySaves ((lookupA st.leaderboards st.currentDay).getD []) st.players
        ((lookupA (ensureDay st.leaderboards nowKey) nowKey).getD [])).1
    ∧ currentLB (rolloverTick nowKey now secret code hash st) =
      (applySaves ((lookupA st.leaderboards st.currentDay).getD []) st.players
        ((lookupA (ensureDay st.leaderboards nowKey) nowKey).getD [])).2 := by
  unfold rolloverTick
  rw [if_neg hne]
  constructor
  · simp only []
    rw [lookupA_ensureDay_ne _ _ _ (Ne.symm hne)]
  · simp only [currentLB]
    rw [lookupA_setA_self]
    simp only [Option.getD_some]
    rw [lookupA_ensureDay_ne _ _ _ (Ne.symm hne)]

/-- C5: at a rollover transition into a fresh day, every player with a
positive save-from-reset counter and a positive-score entry on the closing
board gets exactly that score copied into the new board and the counter
decremented by exactly one; every other player keeps their record untouched
and gets no carried entry. -/
theorem save_from_reset_carry (nowKey : String) (now : ℚ) (secret code : String)
    (hash : String → String) (st : ServerState) (pid : String) (p : Player)
    (hne : nowKey ≠ st.currentDay)
    (hfresh : lookupA st.leaderboards nowKey = none)
    (hnd : (st.players.map Prod.fst).Nodup)
    (hp : lookupA st.players pid = some p) :
    (∀ prev, 0 < p.saveFromReset →
      lookupA ((lookupA st.leaderboards st.currentDay).getD []) pid = some prev →
      0 < prev.score →
      lookupA (currentLB (rolloverTick nowKey now secret code hash st)) pid =
        some { playerId := pid, name := p.name, score := prev.score } ∧
      lookupA (rolloverTick nowKey now secret code hash st).players pid =
        some { p with saveFromReset := p.saveFromReset - 1 })
    ∧ ((p.saveFromReset ≤ 0 ∨
        lookupA ((lookupA st.leaderboards st.currentDay).getD []) pid = none ∨
        (∃ prev, lookupA ((lookupA st.leaderboards st.currentDay).getD []) pid
          = some prev ∧ prev.score ≤ 0)) →
      lookupA (rolloverTick nowKey now secret code hash st).players pid = some p ∧
      lookupA (currentLB (rolloverTick nowKey now secret code hash st)) pid = none) := by
  obtain ⟨hpl, hlb⟩ :=
    rolloverTick_transition_parts nowKey now secret code hash st hne
  have hinit : ((lookupA (ensureDay st.leaderboards nowKey) nowKey).getD []
      : List (String × LBEntry)) = [] := by
    rw [lookupA_ensureDay_self, hfresh]
    rfl
  rw [hinit] at hpl hlb
  have hplkup : lookupA (rolloverTick nowKey now secret code hash st).players pid =
      some (saveAdjust ((lookupA st.leaderboards st.currentDay).getD []) pid p) := by
    rw [hpl, applySaves_players, lookupA_map_adjust, hp]
    rfl
  have hlbkup : lookupA (currentLB (rolloverTick nowKey now secret code hash st)) pid =
      savedEntry ((lookupA st.leaderboards st.currentDay).getD []) pid p
        (lookupA ([] : List (String × LBEntry)) pid) := by
    rw [hlb, applySaves_lb_lookup _ st.players pid p hnd hp]
  constructor
  · intro prev hcnt hprev hscore
    constructor
    · rw [hlbkup, savedEntry, hprev]
      simp [hcnt, hscore, lookupA]
    · rw [hplkup, saveAdjust, hprev]
      simp [hcnt, hscore]
  · intro hcase
    rcases hcase with hcnt | hnone | ⟨prev, hprev, hscore⟩
    · constructor
      · rw [hplkup, saveAdjust]
        simp [not_lt.mpr hcnt]
      · rw [hlbkup, savedEntry]
        cases hprev : lookupA ((lookupA st.leaderboards st.currentDay).getD []) pid with
        | none => rfl
        | some prev => simp [not_lt.mpr hcnt, lookupA]
    · constructor
      · rw [hplkup, saveAdjust, hnone]
        cases hc : decide (0 < p.saveFromReset) <;> simp [hnone]
      · rw [hlbkup, savedEntry, hnone]
        rfl
    · constructor
      · rw [hplkup, saveAdjust, hprev]
        simp [not_lt.mpr hscore]
      · rw [hlbkup, savedEntry, hprev]
        simp [not_lt.mpr hscore, lookupA]

theorem submit_score_best_is_max_of_floors_witness :
    entryScore subSeqOut "p" = bestAfter (entryScore subAdminState "p")
      (subSeqList.map (fun x => scoreFloor (x.2).score))
    ∧ submitScore 0 subBadReq subAdminState =
        (subAdminState, Except.error SubmitErr.invalidScore) := by
  constructor
  · exact (submit_score_best_is_max_of_floors "p").2.1 subSeqList subAdminState subSeqOut
      (by decide) (by rfl)
  · exact (submit_score_best_is_max_of_floors "p").2.2.2 0 subBadReq subAdminState
      sampleAdmin (by rfl) (by rfl)

theorem claim_verification_witness :
    adminVerifyClaim shaW "k" "k" "2024-05-01" "p1" "sec" verWinners "t" =
      Except.ok ({ verWinnerRec with verified := true, verifiedAt := some "t" },
        setA verWinners "2024-05-01"
          { verWinnerRec with verified := true, verifiedAt := some "t" })
    ∧ verifyWinner shaW "p1" "win-aaaa" "bad" verWinners "t" =
        Except.error VerifyErr.invalidVerification := by
  constructor
  · exact ((claim_verification shaW).1 "k" "2024-05-01" "p1" "sec" "t" verWinners
      verWinnerRec (by rfl) (by rfl)).1 (by rfl)
  · exact ((claim_verification shaW).2.1 "p1" "win-aaaa" "bad" "t" verWinners
      "2024-05-01" verWinnerRec (by decide) (by decide) (by decide) (by rfl)).2
      (by decide)

theorem rollover_one_transition_per_day_witness :
    rolloverTick "2024-05-01" 0 "s" "c" shaW rollState =
      { rollState with runs := cleanupOldRuns 0 rollState.runs }
    ∧ (∃ e, firstMax (rollLB.map Prod.snd) = some e ∧
        lookupA (rolloverTick "2024-05-02" 0 "s" "c" shaW rollState).winners
          "2024-05-01" = some (mkWinner "2024-05-01" e 100 (shaW "s") "c") ∧
        ∃ pre post, rollLB.map Prod.snd = pre ++ e :: post ∧
          (∀ y ∈ pre, y.score < e.score) ∧
          (∀ y ∈ rollLB.map Prod.snd, y.score ≤ e.score)) := by
  constructor
  · exact (rollover_one_transition_per_day shaW).1 "2024-05-01" 0 "s" "c" rollState rfl
  · exact ((rollover_one_transition_per_day shaW).2.2.2.1 "2024-05-02" 0 "s" "c"
      rollState (by decide)).2 (by decide)

theorem save_from_reset_carry_witness :
    (lookupA (currentLB (rolloverTick "2024-05-02" 0 "s" "c" shaW saveState)) "c" =
        some { playerId := "c", name := "carol", score := 500 } ∧
      lookupA (rolloverTick "2024-05-02" 0 "s" "c" shaW saveState).players "c" =
        some { saverPlayer with saveFromReset := 1 })
    ∧ (lookupA (rolloverTick "2024-05-02" 0 "s" "c" shaW saveState).players "d" =
        some nonSaverPlayer ∧
      lookupA (currentLB (rolloverTick "2024-05-02" 0 "s" "c" shaW saveState)) "d" =
        none) := by
  constructor
  · exact (save_from_reset_carry "2024-05-02" 0 "s" "c" shaW saveState "c" saverPlayer
      (by decide) (by rfl) (by decide) (by rfl)).1
      { playerId := "c", name := "carol", score := 500 } (by decide) (by rfl) (by decide)
  · exact (save_from_reset_carry "2024-05-02" 0 "s" "c" shaW saveState "d" nonSaverPlayer
      (by decide) (by rfl) (by decide) (by rfl)).2 (Or.inl (by decide))

theorem anti_cheat_rules_witness :
    ((∃ n e, (submitScore 90000 acReq acState).2 =
        Except.error (SubmitErr.tooFast n e)) ↔
      ((90000 : ℚ) - 0) / 1000 + 2 < max (600 / 6) 8)
    ∧ (∀ xs, Real.sqrt ((popVariance xs : ℚ) : ℝ) < 50 ↔ popVariance xs < 2500) := by
  have h := anti_cheat_rules 90000 acReq acState samplePlayer 600
    { playerId := "n", startedAt := 0 } (by rfl) (by rfl) (by rfl) (by decide)
    (by rfl) (by rfl)
  exact ⟨h.2.1, h.2.2.2⟩

theorem run_single_use_witness :
    (submitScore 0 acReqNoRun acState).2 = Except.error SubmitErr.noActiveRun
    ∧ ∃ b st', submitScore 0 (subReqAt 3) subAdminState = (st', Except.ok b) ∧
        st'.runs = subAdminState.runs := by
  constructor
  · exact run_single_use.1 0 acReqNoRun acState samplePlayer 600 (by rfl) (by rfl)
      (by rfl) (by decide) (Or.inl (by rfl))
  · exact run_single_use.2.2.2 0 (subReqAt 3) subAdminState sampleAdmin 3 (by rfl)
      (by rfl) (by rfl) (by decide)

theorem register_name_rules_witness :
    register "" "u" = RegisterResult.invalidName
    ∧ ∃ p : Player, register "alice" "u" = RegisterResult.ok "u" p p.name ∧
        1 ≤ p.name.length := by
  constructor
  · exact (register_name_rules "" "u").1 (Or.inl rfl)
  · refine ⟨Player.mk "alice" 100 false 0 false "drop-u", rfl, ?_⟩
    exact ((register_name_rules "alice" "u").2 "u"
      (Player.mk "alice" 100 false 0 false "drop-u") "alice" (by rfl)).2.2.2 (by decide)

theorem claim_grants_drain_witness :
    lookupA (claimGrants [("a", [("FLASHBANG", 2)])] "a").2 "b" =
      lookupA ([("a", [("FLASHBANG", (2 : Int))])] : Grants) "b"
    ∧ (claimGrants (queueGrant (claimGrants [("a", [("FLASHBANG", 2)])] "a").2
        "a" "FLASHBANG" 1) "a").1 = [("FLASHBANG", 1)] := by
  have h := claim_grants_drain [("a", [("FLASHBANG", 2)])] "a"
  exact ⟨h.2.2.2.1 "b" (by decide), h.2.2.2.2.2 "FLASHBANG" 1⟩

theorem flashbang_no_state_change_witness :
    ∃ evts, useItemFlashbang id 0 "p" subAdminState ["p", "x", "y"] =
        Except.ok (subAdminState, evts)
      ∧ evts.length ≤ 50
      ∧ (∀ ev ∈ evts, ev.target ∈ ["p", "x", "y"] ∧ ev.target ≠ "p" ∧
          ev.sentBy = "p" ∧ ev.ts = 0)
      ∧ (∀ st2 : ServerState, (lookupA st2.players "p").isSome →
          useItemFlashbang id 0 "p" st2 ["p", "x", "y"] = Except.ok (st2, evts)) := by
  exact flashbang_no_state_change id 0 "p" subAdminState ["p", "x", "y"] sampleAdmin
    (by rfl) (List.Perm.refl _)

end Taxrunner
